import Mathlib

/-!
Verification development for the `simge` tensor-scheduling simulator.

The Rust sources are shallowly embedded:
* `src/memory.rs`  → `SRAM`, `DRAM` and their methods (`BTreeMap` becomes a
  key-sorted association list, `HashSet` a duplicate-free list);
* `src/sim.rs`     → `Operators`, `opRun`, `performOp`, `evictSingle`,
  `allocateBuffer`, `rematerialize`, `runOps` (the `JitSim` interpreter);
* `src/heuristics.rs` → `randomImpl`, `lruImpl`;
* `src/from_glenside.rs` → `compileInstruction` (the lowering pass).

Rust panics are modelled as `Except.error`; `usize` is modelled as `Nat`
(no SRAM quantity in the program can overflow in a run the simulator
accepts, and no arithmetic here wraps).  Loops are modelled with explicit
fuel where the Rust loop is not structurally recursive.
-/

/-- Association-list lookup, modelling `BTreeMap::get`. -/
def lookupA (id : Nat) : List (Nat × Nat) → Option Nat
  | [] => none
  | p :: rest => if p.1 = id then some p.2 else lookupA id rest

/-- Key-sorted insert-or-overwrite, modelling `BTreeMap::insert`. -/
def insertSorted (id sz : Nat) : List (Nat × Nat) → List (Nat × Nat)
  | [] => [(id, sz)]
  | p :: rest =>
    if id < p.1 then (id, sz) :: p :: rest
    else if id = p.1 then (id, sz) :: rest
    else p :: insertSorted id sz rest

/-- Key removal, modelling `BTreeMap::remove`. -/
def removeA (id : Nat) : List (Nat × Nat) → List (Nat × Nat)
  | [] => []
  | p :: rest => if p.1 = id then rest else p :: removeA id rest

/-- Duplicate-free insert, modelling `HashSet::insert`. -/
def insertOnce (id : Nat) (l : List Nat) : List Nat :=
  if id ∈ l then l else id :: l

/-- Sum of the values of an association list (`Σ residence.values()`). -/
def sumVals (l : List (Nat × Nat)) : Nat :=
  (l.map Prod.snd).sum

/-- SRAM state, embedding `struct SRAM` of `src/memory.rs`.  The extra
`peak` field is ghost instrumentation recording the largest value ever
taken by `resident_size` (the driver that reports `peak_resident_size`
is not under `src/`; the field is updated at the only place
`resident_size` grows, namely `put`). -/
structure SRAM where
  residence : List (Nat × Nat)
  evict : List Nat
  resident_size : Nat
  mem_limit : Nat
  trip_count : Nat
  peak : Nat
deriving DecidableEq, Repr

/-- DRAM state, embedding `struct DRAM` of `src/memory.rs`. -/
structure DRAM where
  residence : List (Nat × Nat)
deriving DecidableEq, Repr

/-- Constructor `SRAM::new`. -/
def SRAM.new (sram_size : Nat) : SRAM :=
  { residence := [], evict := [], resident_size := 0, mem_limit := sram_size,
    trip_count := 0, peak := 0 }

/-- Constructor `DRAM::new`. -/
def DRAM.new : DRAM := { residence := [] }

/-- Method `Memory::size_of` on SRAM. -/
def SRAM.size_of (s : SRAM) (data : Nat) : Option Nat :=
  lookupA data s.residence

/-- Method `Memory::contains` on SRAM. -/
def SRAM.contains (s : SRAM) (data : Nat) : Bool :=
  (lookupA data s.residence).isSome

/-- Method `Memory::get` on SRAM (panics if absent). -/
def SRAM.get (s : SRAM) (id : Nat) : Except String Nat :=
  match lookupA id s.residence with
  | some size => .ok size
  | none => .error "no residence has id in SRAM"

/-- Method `Memory::size_allocated` on SRAM. -/
def SRAM.size_allocated (s : SRAM) : Nat := s.resident_size

/-- Method `Memory::size_total` on SRAM. -/
def SRAM.size_total (s : SRAM) : Nat := s.mem_limit

/-- Method `Memory::to_vec` on SRAM: resident ids in the map's key order. -/
def SRAM.toVec (s : SRAM) : List Nat := s.residence.map Prod.fst

/-- Method `Memory::put` on SRAM (`src/memory.rs` lines 28-40): capacity
check first (`panic` = error on overflow), then the `assert` that the id
is not already resident; `trip_count` increments iff `from_self` is
false.  The ghost `peak` field records the new `resident_size`. -/
def SRAM.put (s : SRAM) (id size : Nat) (from_self : Bool) : Except String SRAM :=
  if size + s.resident_size ≤ s.mem_limit then
    if s.contains id then .error "assert failed: id already resident"
    else
      .ok { s with
              residence := insertSorted id size s.residence,
              resident_size := s.resident_size + size,
              trip_count := if from_self then s.trip_count else s.trip_count + 1,
              peak := max s.peak (s.resident_size + size) }
  else .error "OOM on SRAM"

/-- Method `Memory::put` on DRAM: insert-or-overwrite, always succeeds,
`from_self` ignored. -/
def DRAM.put (d : DRAM) (data size : Nat) (_from_self : Bool) : DRAM :=
  { residence := insertSorted data size d.residence }

/-- Method `Memory::contains` on DRAM. -/
def DRAM.contains (d : DRAM) (data : Nat) : Bool :=
  (lookupA data d.residence).isSome

/-- Method `Memory::get` on DRAM (panics if absent). -/
def DRAM.get (d : DRAM) (data : Nat) : Except String Nat :=
  match lookupA data d.residence with
  | some size => .ok size
  | none => .error "No resident has id in DRAM"

/-- Method `Memory::size_of` on DRAM. -/
def DRAM.size_of (d : DRAM) (data : Nat) : Option Nat :=
  lookupA data d.residence

/-- Method `Memory::store` on SRAM (`src/memory.rs` lines 74-87): if the
id is resident, copy `(id, size)` to DRAM with `from_self = false`; when
`evict` also remove it from `residence`, add it to the `evict` audit set
and decrement `resident_size`; `trip_count` increments unconditionally.
Panics (= error) when the id is not resident. -/
def SRAM.store (s : SRAM) (id : Nat) (evict : Bool) (dram : DRAM) :
    Except String (SRAM × DRAM) :=
  match lookupA id s.residence with
  | some size =>
    let s' :=
      if evict then
        { s with
            residence := removeA id s.residence,
            evict := insertOnce id s.evict,
            resident_size := s.resident_size - size,
            trip_count := s.trip_count + 1 }
      else { s with trip_count := s.trip_count + 1 }
    .ok (s', dram.put id size false)
  | none => .error "Evicting non-residence"

/-- Method `Memory::deallocate` on SRAM: `assert(contains)`, then remove
and decrement `resident_size`. -/
def SRAM.deallocate (s : SRAM) (data : Nat) : Except String SRAM :=
  match lookupA data s.residence with
  | some size =>
    .ok { s with
            residence := removeA data s.residence,
            resident_size := s.resident_size - size }
  | none => .error "assert failed: deallocating non-residence"

/-- Method `Memory::reset` on SRAM (`src/memory.rs` lines 89-93): clears
`residence`, `evict` and `resident_size`; the code does NOT touch
`trip_count` (and `mem_limit` is kept). -/
def SRAM.reset (s : SRAM) : SRAM :=
  { s with residence := [], evict := [], resident_size := 0 }

mutual
/-- Micro-instruction tree, embedding `enum Operators<D>` of `src/sim.rs`
with `D = egg::Id` rendered as `Nat`.  The `Vec<(D, Operators<D>)>` of
`Compute` is the mutually inductive pair list `OperList`. -/
inductive Operators where
  | Compute (region : String) (op dst : Nat) (args : OperList) (size : Nat)
  | Load (region : String) (data : Nat) (sub : Operators) (size : Nat)
  | Store (region : String) (evict : Bool) (data : Nat) (sub : Operators) (size : Nat)
  | NoOp
/-- Argument list of a `Compute`: pairs of argument id and producing
sub-operator. -/
inductive OperList where
  | nil
  | cons (id : Nat) (op : Operators) (rest : OperList)
end

/-- First components of a `Compute` argument list (`ids.iter().map(|x| x.0)`). -/
def OperList.ids : OperList → List Nat
  | .nil => []
  | .cons i _ rest => i :: OperList.ids rest

/-- Method `Instruction::compile` (`src/sim.rs` lines 320-338): the
deterministic textual form of one micro-instruction. -/
def compileOp : Operators → String
  | .Compute region op dst args _ =>
    "(compute " ++ region ++ " " ++ toString op ++ " " ++ toString dst ++ " " ++
      String.intercalate " " (args.ids.map toString) ++ ")"
  | .Load region data _ _ => "(load " ++ region ++ " " ++ toString data ++ ")"
  | .Store region evict data _ _ =>
    "(store " ++ region ++ " " ++ (if evict then "true" else "false") ++ " " ++
      toString data ++ ")"
  | .NoOp => "Skip"

/-- Method `InsnLogger::write_log` (`src/sim.rs` lines 341-345): append
the compiled form of the instruction to the log vector. -/
def writeLog (op : Operators) (logs : List String) : List String :=
  logs ++ [compileOp op]

/-- Method `Instruction::run` for `Operators` (`src/sim.rs` lines
271-318): execute one instruction against an optional SRAM and the DRAM;
Rust `assert!`/`panic!` become errors. -/
def opRun (op : Operators) (mem : Option SRAM) (dram : DRAM) :
    Except String (Option SRAM × DRAM) :=
  match op with
  | .Compute region _ output_id args size =>
    if region = "host" then
      if args.ids.all (fun i => dram.contains i) then
        .ok (mem, dram.put output_id size true)
      else .error "assert failed: compute arg not in DRAM"
    else
      match mem with
      | some m =>
        if args.ids.all (fun i => m.contains i) then
          if m.size_allocated + size ≤ m.size_total then
            match m.put output_id size true with
            | .ok m' => .ok (some m', dram)
            | .error e => .error e
          else .error "assert failed: compute output exceeds SRAM"
        else .error "assert failed: compute arg not in SRAM"
      | none => .error "No SRAM provided"
  | .Load region data _ size =>
    if region = "host" then .ok (mem, dram.put data size true)
    else
      if dram.contains data then
        match mem with
        | some m =>
          if m.size_allocated + size ≤ m.size_total then
            match m.put data size false with
            | .ok m' => .ok (some m', dram)
            | .error e => .error e
          else .error "assert failed: load exceeds SRAM"
        | none => .error "assert failed: no SRAM for load"
      else .error "assert failed: load source not in DRAM"
  | .Store _ evict data _ _ =>
    match mem with
    | some m =>
      if m.contains data then
        match m.store data evict dram with
        | .ok (m', d') => .ok (some m', d')
        | .error e => .error e
      else .error "assert failed: store source not in SRAM"
    | none => .error "assert failed: no SRAM for store"
  | .NoOp => .ok (mem, dram)

/-- Eviction heuristic as a record of its three methods (`trait
Heuristic` in `src/sim.rs`).  `choose` receives the heuristic state, the
SRAM snapshot (`to_vec`), the exclude set, and the ambient random stream
(the model of `rand::thread_rng()`), returning the victim candidate and
the remaining stream. -/
structure HeuristicImpl (S : Type) where
  choose : S → List Nat → List Nat → List Nat → Option Nat × List Nat
  touch : S → Nat → Nat → S
  evict : S → Nat → S

variable {S : Type}

/-- Working context for the memory-level simulator operations: the SRAM
being operated on, the DRAM, the heuristic state, the ambient random
stream, and a ghost log (`evlog`) of the victims selected by
`evictSingle`, recorded for observability only (no such log exists in
the source; nothing reads it). -/
structure MCtx (S : Type) where
  mem : SRAM
  dram : DRAM
  hs : S
  rng : List Nat
  evlog : List Nat

/-- Function `DTR::evict_single` (`src/sim.rs` lines 239-252): ask the
heuristic for a victim outside `exclude`; a victim also resident in DRAM
is deallocated (no DRAM write), otherwise stored back with
`evict = true`; either way `heuristic.evict` is notified.  No victim
means the thrashing panic. -/
def evictSingle (h : HeuristicImpl S) (exclude : List Nat) (c : MCtx S) :
    Except (String × MCtx S) (MCtx S) :=
  match h.choose c.hs c.mem.toVec exclude c.rng with
  | (none, rng') => .error ("Thrashes here...", { c with rng := rng' })
  | (some v, rng') =>
    let c1 := { c with rng := rng', evlog := c.evlog ++ [v] }
    if c1.dram.contains v then
      match c1.mem.deallocate v with
      | .ok m => .ok { c1 with mem := m, hs := h.evict c1.hs v }
      | .error e => .error (e, c1)
    else
      match c1.mem.store v true c1.dram with
      | .ok (m, d) => .ok { c1 with mem := m, dram := d, hs := h.evict c1.hs v }
      | .error e => .error (e, c1)

/-- Fuelled unfolding of the `while` loop in `DTR::allocate_buffer`. -/
def allocateLoop (h : HeuristicImpl S) : Nat → Nat → List Nat → MCtx S →
    Except (String × MCtx S) (MCtx S)
  | 0, _, _, c => .error ("allocate loop fuel exhausted", c)
  | Nat.succ fuel, size, exclude, c =>
    if c.mem.size_allocated + size > c.mem.size_total then
      match evictSingle h exclude c with
      | .ok c' => allocateLoop h fuel size exclude c'
      | .error e => .error e
    else .ok c

/-- Function `DTR::allocate_buffer` (`src/sim.rs` lines 233-237): evict
until the requested size fits.  Every successful `evictSingle` removes
one resident key, so `residence.length + 1` iterations always suffice:
once the residence is empty a further `evictSingle` necessarily fails
(thrash, or deallocate/store of a non-resident victim). -/
def allocateBuffer (h : HeuristicImpl S) (size : Nat) (exclude : List Nat)
    (c : MCtx S) : Except (String × MCtx S) (MCtx S) :=
  allocateLoop h (c.mem.residence.length + 1) size exclude c

/-- Function `DTR::rematerialize` (`src/sim.rs` lines 162-177): if the
tensor is not resident, fetch its size from DRAM, make room, and `put`
it with `from_self = false`; always `touch` it afterwards. -/
def rematerialize (h : HeuristicImpl S) (data : Nat) (exclude : List Nat)
    (c : MCtx S) : Except (String × MCtx S) (MCtx S) :=
  let afterLoad : Except (String × MCtx S) (MCtx S) :=
    if c.mem.contains data then .ok c
    else
      match c.dram.get data with
      | .error e => .error (e, c)
      | .ok data_size =>
        match allocateBuffer h data_size exclude c with
        | .error e => .error e
        | .ok c1 =>
          match c1.mem.put data data_size false with
          | .error e => .error (e, c1)
          | .ok m => .ok { c1 with mem := m }
  match afterLoad with
  | .error e => .error e
  | .ok c2 =>
    match c2.mem.size_of data with
    | some sz => .ok { c2 with hs := h.touch c2.hs data sz }
    | none => .error ("size_of unwrap failed", c2)

/-- One iteration of the argument loop of `DTR::perform_op` for
`Compute` (`src/sim.rs` lines 193-199): rematerialize the argument if
absent (under the `evict_lock`), otherwise touch it. -/
def argStep (h : HeuristicImpl S) (evict_lock : List Nat) (arg : Nat)
    (c : MCtx S) : Except (String × MCtx S) (MCtx S) :=
  if c.mem.contains arg then
    match c.mem.size_of arg with
    | some sz => .ok { c with hs := h.touch c.hs arg sz }
    | none => .error ("size_of unwrap failed", c)
  else rematerialize h arg evict_lock c

/-- Iterate `argStep` over the argument ids in order. -/
def processArgs (h : HeuristicImpl S) (evict_lock : List Nat) :
    List Nat → MCtx S → Except (String × MCtx S) (MCtx S)
  | [], c => .ok c
  | arg :: rest, c =>
    match argStep h evict_lock arg c with
    | .error e => .error e
    | .ok c' => processArgs h evict_lock rest c'

/-- Lift `Instruction::run` with `Some(mem)` into the context. -/
def liftOpRun (op : Operators) (c : MCtx S) : Except (String × MCtx S) (MCtx S) :=
  match opRun op (some c.mem) c.dram with
  | .error e => .error (e, c)
  | .ok (mo, d) => .ok { c with mem := mo.getD c.mem, dram := d }

/-- Full simulator state: the `region → SRAM` map, the DRAM, the
heuristic state, the ambient random stream, the trace buffer
(`JitSim::trace`, filled through `writeLog`), and the ghost victim log. -/
structure SimState (S : Type) where
  srams : List (String × SRAM)
  dram : DRAM
  hs : S
  rng : List Nat
  trace : List String
  evlog : List Nat

/-- Region lookup in the SRAM map (`srams.get_mut(region)`). -/
def lookupS (region : String) : List (String × SRAM) → Option SRAM
  | [] => none
  | p :: rest => if p.1 = region then some p.2 else lookupS region rest

/-- Write an updated SRAM back under its region key. -/
def updateS (region : String) (m : SRAM) : List (String × SRAM) →
    List (String × SRAM)
  | [] => []
  | p :: rest => if p.1 = region then (p.1, m) :: rest else p :: updateS region m rest

/-- Fold a memory-level context back into the simulator state. -/
def packCtx (region : String) (st : SimState S) (c : MCtx S) : SimState S :=
  { st with
      srams := updateS region c.mem st.srams,
      dram := c.dram,
      hs := c.hs,
      rng := c.rng,
      evlog := c.evlog }

/-- Run a memory-level operation on the SRAM of `region`
(`srams.get_mut(region).unwrap()`; a missing region is the unwrap
panic). -/
def withMem (region : String) (st : SimState S)
    (k : MCtx S → Except (String × MCtx S) (MCtx S)) :
    Except (String × SimState S) (SimState S) :=
  match lookupS region st.srams with
  | none => .error ("no SRAM for region", st)
  | some m =>
    match k { mem := m, dram := st.dram, hs := st.hs, rng := st.rng,
              evlog := st.evlog } with
    | .ok c => .ok (packCtx region st c)
    | .error (msg, c) => .error (msg, packCtx region st c)

/-- Accelerator-`Compute` body of `DTR::perform_op`: build the
`evict_lock` from the immediate arguments, rematerialize/touch them, make
room for the output, execute the compute, touch the destination. -/
def computeCtx (h : HeuristicImpl S) (op : Operators) (dst : Nat)
    (args : OperList) (size : Nat) (c : MCtx S) :
    Except (String × MCtx S) (MCtx S) :=
  let evict_lock := args.ids
  match processArgs h evict_lock args.ids c with
  | .error e => .error e
  | .ok c1 =>
    match allocateBuffer h size evict_lock c1 with
    | .error e => .error e
    | .ok c2 =>
      match liftOpRun op c2 with
      | .error e => .error e
      | .ok c3 => .ok { c3 with hs := h.touch c3.hs dst size }

/-- Accelerator-`Load` body of `DTR::perform_op`: if the tensor is not
resident, make room under the inherited `exclude` set and execute the
load; always touch it afterwards. -/
def loadCtx (h : HeuristicImpl S) (op : Operators) (data : Nat) (size : Nat)
    (exclude : List Nat) (c : MCtx S) : Except (String × MCtx S) (MCtx S) :=
  if c.mem.contains data then
    match c.mem.size_of data with
    | some sz => .ok { c with hs := h.touch c.hs data sz }
    | none => .error ("size_of unwrap failed", c)
  else
    match allocateBuffer h size exclude c with
    | .error e => .error e
    | .ok c1 =>
      match liftOpRun op c1 with
      | .error e => .error e
      | .ok c2 =>
        match c2.mem.size_of data with
        | some sz => .ok { c2 with hs := h.touch c2.hs data sz }
        | none => .error ("size_of unwrap failed", c2)

/-- Accelerator-`Store` body of `DTR::perform_op`: execute the store; if
it evicts, notify the heuristic. -/
def storeCtx (h : HeuristicImpl S) (op : Operators) (data : Nat) (evict : Bool)
    (c : MCtx S) : Except (String × MCtx S) (MCtx S) :=
  match liftOpRun op c with
  | .error e => .error e
  | .ok c1 =>
    if evict then .ok { c1 with hs := h.evict c1.hs data } else .ok c1

/-- Function `DTR::perform_op` (`src/sim.rs` lines 179-231). -/
def performOp (h : HeuristicImpl S) (op : Operators) (exclude : List Nat)
    (st : SimState S) : Except (String × SimState S) (SimState S) :=
  match op with
  | .Compute region _ dst args size =>
    if region = "host" then
      match opRun op none st.dram with
      | .error e => .error (e, st)
      | .ok (_, d') => .ok { st with dram := d' }
    else
      withMem region st (computeCtx h op dst args size)
  | .Load region data _ size =>
    if region = "host" then
      match opRun op none st.dram with
      | .error e => .error (e, st)
      | .ok (_, d') => .ok { st with dram := d' }
    else
      withMem region st (loadCtx h op data size exclude)
  | .Store region evict data _ _ =>
    if region = "host" then .error ("Store should not performed on host", st)
    else
      withMem region st (storeCtx h op data evict)
  | .NoOp => .ok st

/-- Method `JitSim::run` (`src/sim.rs` lines 127-153), fuelled and with
the tree/argument-list recursion folded into one sum type.  For
`Load`/`Store` the nested sub-operator runs with the inherited `pin`,
for `Compute` the children run with the local pin of immediate-argument
ids; afterwards `perform_op` runs on the outer instruction with an EMPTY
exclude set, exactly as in the source.  The `writeLog` call after each
successful `perform_op` is modelled from the spec: the driver that
appends each executed micro-instruction to the trace buffer is not under
`src/` (only `InsnLogger::write_log` itself is). -/
def runAO (h : HeuristicImpl S) :
    Nat → List Nat → Operators ⊕ OperList → SimState S →
    Except (String × SimState S) (SimState S)
  | 0, _, _, st => .error ("run fuel exhausted", st)
  | Nat.succ fuel, pin, .inl op, st =>
    match op with
    | .NoOp => .ok st
    | .Load _ _ sub _ =>
      match runAO h fuel pin (.inl sub) st with
      | .error e => .error e
      | .ok st1 =>
        match performOp h op [] st1 with
        | .error e => .error e
        | .ok st2 => .ok { st2 with trace := writeLog op st2.trace }
    | .Store _ _ _ sub _ =>
      match runAO h fuel pin (.inl sub) st with
      | .error e => .error e
      | .ok st1 =>
        match performOp h op [] st1 with
        | .error e => .error e
        | .ok st2 => .ok { st2 with trace := writeLog op st2.trace }
    | .Compute _ _ _ subops _ =>
      match runAO h fuel subops.ids (.inr subops) st with
      | .error e => .error e
      | .ok st1 =>
        match performOp h op [] st1 with
        | .error e => .error e
        | .ok st2 => .ok { st2 with trace := writeLog op st2.trace }
  | Nat.succ fuel, pin, .inr l, st =>
    match l with
    | .nil => .ok st
    | .cons _ op rest =>
      match runAO h fuel pin (.inl op) st with
      | .error e => .error e
      | .ok st' => runAO h fuel pin (.inr rest) st'

/-- Interpret one operator tree (`JitSim::run`). -/
def runOps (h : HeuristicImpl S) (fuel : Nat) (pin : List Nat) (op : Operators)
    (st : SimState S) : Except (String × SimState S) (SimState S) :=
  runAO h fuel pin (.inl op) st

/-- Interpret a `Compute` child list exactly as `JitSim::run` does. -/
def runArgs (h : HeuristicImpl S) (fuel : Nat) (pin : List Nat) (l : OperList)
    (st : SimState S) : Except (String × SimState S) (SimState S) :=
  runAO h fuel pin (.inr l) st

/-- State carried by a run outcome (the error branch keeps the state at
the failure point: the `&mut` trace buffer survives a caller-side catch
of the panic). -/
def stateOf : Except (String × SimState S) (SimState S) → SimState S
  | .ok st => st
  | .error (_, st) => st

/-- Trace buffer of a run outcome. -/
def traceOf (r : Except (String × SimState S) (SimState S)) : List String :=
  (stateOf r).trace

/-- Ghost victim log of a run outcome. -/
def evlogOf (r : Except (String × SimState S) (SimState S)) : List Nat :=
  (stateOf r).evlog

/-- Whether a run outcome is a normal completion. -/
def resultIsOk : Except (String × SimState S) (SimState S) → Bool
  | .ok _ => true
  | .error _ => false

/-- Context carried by a memory-level outcome. -/
def ctxOf : Except (String × MCtx S) (MCtx S) → MCtx S
  | .ok c => c
  | .error (_, c) => c

/-- Ghost victim log of a memory-level outcome. -/
def ctxEvlogOf (r : Except (String × MCtx S) (MCtx S)) : List Nat :=
  (ctxOf r).evlog

/-- Modelled from the spec: the driver that creates the memories,
interprets the tree and reports `(trace, trip_count, peak_resident_size)`
on completion is not under `src/` (only `JitSim::run` and
`InsnLogger::write_log` are); this definition follows spec section 6
"Exit conditions" with one accelerator region of the configured
capacity.  The Boolean is `true` on normal completion; on a fatal error
the triple still exposes the trace accumulated so far. -/
def simulate (h : HeuristicImpl S) (hs0 : S) (rng0 : List Nat) (region : String)
    (cap : Nat) (dram0 : DRAM) (fuel : Nat) (ops : Operators) :
    (List String × Nat × Nat) × Bool :=
  let st0 : SimState S :=
    { srams := [(region, SRAM.new cap)], dram := dram0, hs := hs0,
      rng := rng0, trace := [], evlog := [] }
  let r := runOps h fuel [] ops st0
  let stf := stateOf r
  let sram := (lookupS region stf.srams).getD (SRAM.new cap)
  ((stf.trace, sram.trip_count, sram.peak), resultIsOk r)

mutual
/-- Compiled forms of the non-NoOp instructions of a tree in execution
order (children first, then the instruction itself). -/
def postorderCompiled : Operators → List String
  | .NoOp => []
  | .Load r d sub sz => postorderCompiled sub ++ [compileOp (.Load r d sub sz)]
  | .Store r e d sub sz =>
    postorderCompiled sub ++ [compileOp (.Store r e d sub sz)]
  | .Compute r o dst args sz =>
    postorderList args ++ [compileOp (.Compute r o dst args sz)]
/-- Compiled forms of the instructions of an argument list in order. -/
def postorderList : OperList → List String
  | .nil => []
  | .cons _ op rest => postorderCompiled op ++ postorderList rest
end

/-- LRU heuristic state: the next logical timestamp and the member list
of (timestamp, id) records. -/
abbrev LruState := Nat × List (Nat × Nat)

/-- Struct `RandomEviction` (`src/heuristics.rs` lines 46-71).  The
struct itself is stateless (`S = Unit`); `choose` filters the SRAM
snapshot by the exclude set and, when the allowed list is non-empty,
draws one element uniformly via `SliceRandom::choose(&mut
rand::thread_rng())`.  The thread rng is ambient OS-seeded state — the
constructor takes no seed — modelled as the stream of draws threaded
through the simulator, of which one draw indexes the allowed list.
`touch` and `evict` are no-ops. -/
def randomChoose (snapshot exclude rng : List Nat) : Option Nat × List Nat :=
  let allowed := snapshot.filter (fun x => decide (x ∉ exclude))
  if allowed.length > 0 then
    (some (allowed.getD (rng.headD 0 % allowed.length) 0), rng.tail)
  else (none, rng)

/-- The heuristic record of `RandomEviction`. -/
def randomImpl : HeuristicImpl Unit where
  choose := fun _ snapshot exclude rng => randomChoose snapshot exclude rng
  touch := fun s _ _ => s
  evict := fun s _ => s

/-- Oldest entry of the LRU member list: the Rust `BinaryHeap` of
`DataPair(Instant, D)` ordered by `elapsed()` peeks the record with the
oldest instant, i.e. the minimum logical timestamp here. -/
def lruOldest : List (Nat × Nat) → Option (Nat × Nat)
  | [] => none
  | p :: rest =>
    match lruOldest rest with
    | none => some p
    | some q => if p.1 ≤ q.1 then some p else some q

/-- Struct `LRU` (`src/heuristics.rs` lines 73-111).  The source stamps
each `touch` with `Instant::now()`; in this single-threaded interpreter
that wall clock is modelled by the monotone counter in the first state
component (each `touch` takes a fresh strictly-larger stamp, preserving
the heap order of distinct stamps; stamp collisions of the wall clock do
not occur in the model).  `choose` ignores the SRAM snapshot (the source
ignores `_sram`) and draws no randomness; `touch` removes any existing
record for the id and appends a freshly stamped one; `evict` removes the
record for the id. -/
def lruChoose (s : LruState) (exclude : List Nat) : Option Nat :=
  (lruOldest (s.2.filter (fun p => decide (p.2 ∉ exclude)))).map Prod.snd

/-- The heuristic record of `LRU`. -/
def lruImpl : HeuristicImpl LruState where
  choose := fun s _ exclude rng => (lruChoose s exclude, rng)
  touch := fun s data _ =>
    let pruned := s.2.filter (fun p => p.2 != data)
    (s.1 + 1, pruned ++ [(s.1, data)])
  evict := fun s data => (s.1, s.2.filter (fun p => p.2 != data))

/-- A heuristic never proposes an excluded victim.  Both source
heuristics filter the candidate set by `exclude` in `choose`. -/
def RespectsExclude (h : HeuristicImpl S) : Prop :=
  ∀ s snapshot exclude rng v rng',
    h.choose s snapshot exclude rng = (some v, rng') → v ∉ exclude

/-- Node variants of the glenside `Language` handled by the lowering
pass (`src/from_glenside.rs`); payloads are child source ids.  Variants
the pass does not support (the catch-all `panic!` arm) are collapsed
into `Unsupported`, and the opaque payloads the pass never reads
(operator names, literal contents) are dropped. -/
inductive Lang where
  | RelayOperatorCall (ids : List Nat)
  | RelayOperator
  | AcceleratorLoad (region data : Nat)
  | AcceleratorStore (region data : Nat)
  | AcceleratorCall (ids : List Nat)
  | Compute (op x : Nat)
  | AccessPair (car cdr : Nat)
  | AccessInsertAxis (x y : Nat)
  | AccessBroadcast (x y : Nat)
  | Access (x y : Nat)
  | AccessLiteral (x : Nat)
  | AccessTensor (x : Nat)
  | AccessFlatten (x : Nat)
  | RelayActivationLayout
  | Usize (n : Nat)
  | Shape
  | RelayKernelLayout
  | Unsupported

/-- Insert-or-overwrite for the memoization map (`HashMap::insert`). -/
def memoInsert (k v : Nat) : List (Nat × Nat) → List (Nat × Nat)
  | [] => [(k, v)]
  | p :: rest => if p.1 = k then (k, v) :: rest else p :: memoInsert k v rest

/-- Translate a list of source ids (`id_translation.get(x).unwrap()` on
each; a missing entry is the unwrap panic). -/
def transAll (t : List (Nat × Nat)) : List Nat → Option (List Nat)
  | [] => some []
  | i :: rest =>
    match lookupA i t, transAll t rest with
    | some j, some rest' => some (j :: rest')
    | _, _ => none

/-- Build a `Compute` argument list from (canonical id, operator) pairs
(the `mem_id.zip(insn)` of the source). -/
def toOperList : List (Nat × Operators) → OperList
  | [] => .nil
  | (i, op) :: rest => .cons i op (toOperList rest)

/-- Function `compile_instruction` of `src/from_glenside.rs`, fuelled,
with the child-list loops folded into the same recursion (`Sum.inr` mode
lowers a list of source children in order, collecting the non-`None`
results, threading the memo).  The outer `Option` is `none` on any Rust
panic (missing translation, unwrap of `None`, unsupported node, bad
analysis data, failed assert, out-of-range node index) and on fuel
exhaustion; the inner `Option` is the function's own `Option` return
value.  The memo maps canonical source ids to the canonical id of the
already-emitted subexpression. -/
def compileAux (expr : List Lang) (analysis : Nat → Option String)
    (trans : List (Nat × Nat)) :
    Nat → Nat ⊕ List Nat → List (Nat × Nat) →
    Option ((Option (Operators × Nat) ⊕ List (Nat × Operators)) × List (Nat × Nat))
  | 0, _, _ => none
  | Nat.succ fuel, .inr l, memo =>
    match l with
    | [] => some (.inr [], memo)
    | c :: rest =>
      match compileAux expr analysis trans fuel (.inl c) memo with
      | none => none
      | some (.inr _, _) => none
      | some (.inl none, memo1) =>
        match compileAux expr analysis trans fuel (.inr rest) memo1 with
        | none => none
        | some (.inl _, _) => none
        | some (.inr pairs, memo2) => some (.inr pairs, memo2)
      | some (.inl (some (op, i)), memo1) =>
        match compileAux expr analysis trans fuel (.inr rest) memo1 with
        | none => none
        | some (.inl _, _) => none
        | some (.inr pairs, memo2) => some (.inr ((i, op) :: pairs), memo2)
  | Nat.succ fuel, .inl srcId, memo =>
    match lookupA srcId trans with
    | none => none
    | some cur =>
      match lookupA cur memo with
      | some i => some (.inl (some (.NoOp, i)), memo)
      | none =>
        match expr.get? cur with
        | none => none
        | some node =>
          match node with
          | .RelayOperatorCall ids =>
            match ids with
            | [] => none
            | op0 :: rest =>
              if rest.length > 0 then
                match expr.get? op0 with
                | some .RelayOperator =>
                  match compileAux expr analysis trans fuel (.inr rest) memo with
                  | some (.inr pairs, memo1) =>
                    if pairs.length > 0 then
                      match transAll trans ids with
                      | some tids =>
                        some (.inl (some
                          (.Compute "host" (tids.headD 0) cur (toOperList pairs) 1,
                           cur)), memoInsert cur cur memo1)
                      | none => none
                    else none
                  | _ => none
                | _ => none
              else none
          | .AcceleratorCall ids =>
            if ids.length < 2 then none
            else
              match compileAux expr analysis trans fuel
                  (.inr ((ids.drop 1).dropLast)) memo with
              | some (.inr pairs, memo1) =>
                if pairs.length > 0 then
                  match transAll trans ids with
                  | some tids =>
                    match analysis (tids.headD 0) with
                    | some region =>
                      some (.inl (some
                        (.Compute region (tids.headD 0) cur (toOperList pairs) 1,
                         cur)), memoInsert cur cur memo1)
                    | none => none
                  | none => none
                else none
              | _ => none
          | .AcceleratorLoad region data =>
            match compileAux expr analysis trans fuel (.inl data) memo with
            | some (.inl (some (load_cmd, src_id)), memo1) =>
              match lookupA region trans with
              | some region' =>
                match analysis region' with
                | some regionName =>
                  some (.inl (some (.Load regionName src_id load_cmd 1, src_id)),
                        memoInsert cur src_id memo1)
                | none => none
              | none => none
            | _ => none
          | .AcceleratorStore region data =>
            match compileAux expr analysis trans fuel (.inl data) memo with
            | some (.inl (some (store_cmd, dst_id)), memo1) =>
              match lookupA region trans with
              | some region' =>
                match analysis region' with
                | some regionName =>
                  some (.inl (some
                    (.Store regionName false dst_id store_cmd 1, dst_id)),
                        memoInsert cur dst_id memo1)
                | none => none
              | none => none
            | _ => none
          | .Compute opid x =>
            match compileAux expr analysis trans fuel (.inl x) memo with
            | some (.inl (some (child_op, i)), memo1) =>
              some (.inl (some
                (.Compute "host" opid cur (.cons i child_op .nil) 1, cur)),
                    memoInsert cur cur memo1)
            | _ => none
          | .AccessPair car cdr =>
            match compileAux expr analysis trans fuel (.inl car) memo with
            | none => none
            | some (.inr _, _) => none
            | some (.inl carRes, memo1) =>
              match compileAux expr analysis trans fuel (.inl cdr) memo1 with
              | none => none
              | some (.inr _, _) => none
              | some (.inl cdrRes, memo2) =>
                let child_insn : List (Nat × Operators) :=
                  (match carRes with | some (op, i) => [(i, op)] | none => []) ++
                  (match cdrRes with | some (op, i) => [(i, op)] | none => [])
                let memo3 := memoInsert cur cur memo2
                if child_insn.length > 0 then
                  some (.inl (some
                    (.Compute "host" cur cur (toOperList child_insn) 1, cur)),
                        memo3)
                else some (.inl none, memo3)
          | .AccessInsertAxis x _ => compileAux expr analysis trans fuel (.inl x) memo
          | .AccessBroadcast x _ => compileAux expr analysis trans fuel (.inl x) memo
          | .Access x _ => compileAux expr analysis trans fuel (.inl x) memo
          | .AccessLiteral _ =>
            some (.inl (some (.Load "host" cur .NoOp 1, cur)), memoInsert cur cur memo)
          | .AccessTensor _ =>
            some (.inl (some (.Load "host" cur .NoOp 1, cur)), memoInsert cur cur memo)
          | .AccessFlatten x =>
            match compileAux expr analysis trans fuel (.inl x) memo with
            | some (.inl (some (op, i)), memo1) =>
              some (.inl (some
                (.Compute "host" cur cur (.cons i op .nil) 1, cur)), memo1)
            | _ => none
          | .RelayActivationLayout => some (.inl none, memo)
          | .Usize _ => some (.inl none, memo)
          | .Shape => some (.inl none, memo)
          | .RelayKernelLayout => some (.inl none, memo)
          | _ => none

/-- Single-node entry point of the lowering (`compile_instruction`). -/
def compileInstruction (expr : List Lang) (analysis : Nat → Option String)
    (trans : List (Nat × Nat)) (fuel srcId : Nat) (memo : List (Nat × Nat)) :
    Option (Option (Operators × Nat) × List (Nat × Nat)) :=
  match compileAux expr analysis trans fuel (.inl srcId) memo with
  | some (.inl r, memo') => some (r, memo')
  | _ => none

/-- Whether an operator is `NoOp`. -/
def opIsNoOp : Operators → Bool
  | .NoOp => true
  | _ => false

/-- Concrete scenario for the pin-set claim: an accelerator `Compute`
(dst 7) whose immediate arguments are tensor 1 (produced by a `Load`)
and tensor 5 (produced by a nested accelerator `Compute` over tensor 2),
on a 12-byte SRAM with tensors 1 and 2 backed in DRAM. -/
def pinCexInner : Operators :=
  .Compute "acc" 9 5 (.cons 2 (.Load "acc" 2 .NoOp 8) .nil) 4

/-- Argument list of the outer `Compute` of the pin-set scenario. -/
def pinCexArgs : OperList :=
  .cons 1 (.Load "acc" 1 .NoOp 4) (.cons 5 pinCexInner .nil)

/-- Outer `Compute` of the pin-set scenario. -/
def pinCexOp : Operators := .Compute "acc" 0 7 pinCexArgs 0

/-- Initial simulator state of the pin-set scenario (LRU heuristic). -/
def pinCexSt : SimState LruState :=
  { srams := [("acc", SRAM.new 12)], dram := { residence := [(1, 4), (2, 8)] },
    hs := (0, []), rng := [], trace := [], evlog := [] }

/-- Concrete scenario for the determinism claim: three loads of size 4
into an 8-byte SRAM feeding one `Compute`, so the third load must evict
one of two equally valid victims; the random heuristic's pick depends on
the ambient rng stream. -/
def rndCexOp : Operators :=
  .Compute "acc" 0 9
    (.cons 1 (.Load "acc" 1 .NoOp 4)
      (.cons 2 (.Load "acc" 2 .NoOp 4)
        (.cons 3 (.Load "acc" 3 .NoOp 4) .nil))) 4

/-- Initial simulator state of the determinism scenario, parametrised by
the ambient rng stream. -/
def rndCexSt (rng : List Nat) : SimState Unit :=
  { srams := [("acc", SRAM.new 8)], dram := { residence := [(1, 4), (2, 4), (3, 4)] },
    hs := (), rng := rng, trace := [], evlog := [] }

/-- Concrete memory context for the store/rematerialize round-trip claim:
tensor 1 of size 4 resident in a 10-byte SRAM whose `store(1, false, dram)`
has just fired (`trip_count = 1`, DRAM holds the copy). -/
def rtCtx : MCtx LruState :=
  { mem := { residence := [(1, 4)], evict := [], resident_size := 4,
             mem_limit := 10, trip_count := 1, peak := 4 },
    dram := { residence := [(1, 4)] }, hs := (0, []), rng := [], evlog := [] }

/-- Concrete source program for the lowering-idempotence claim: node 1 is
an `AccessFlatten` over the `AccessTensor` node 0. -/
def flatCexExpr : List Lang := [.AccessTensor 0, .AccessFlatten 0]

/-- Identity id-translation for the lowering-idempotence scenario. -/
def flatCexTrans : List (Nat × Nat) := [(0, 0), (1, 1)]

/-- SRAM states reachable through the memory contract: `new` followed by
any sequence of successful `put` / `store` / `deallocate` / `reset`
calls (the simulator mutates an SRAM only through these methods). -/
inductive ReachableSRAM : SRAM → Prop where
  | new (cap : Nat) : ReachableSRAM (SRAM.new cap)
  | put {s s' : SRAM} {id sz : Nat} {fs : Bool} :
      ReachableSRAM s → s.put id sz fs = .ok s' → ReachableSRAM s'
  | store {s s' : SRAM} {id : Nat} {ev : Bool} {d d' : DRAM} :
      ReachableSRAM s → s.store id ev d = .ok (s', d') → ReachableSRAM s'
  | dealloc {s s' : SRAM} {id : Nat} :
      ReachableSRAM s → s.deallocate id = .ok s' → ReachableSRAM s'
  | reset {s : SRAM} : ReachableSRAM s → ReachableSRAM s.reset

/-- Concrete memory context for the eviction-contract witness: tensors 1
and 2 resident (4 bytes each, SRAM full at 8/8), tensor 1 also in DRAM,
LRU records for both, and tensor 2 excluded. -/
def c6ctx : MCtx LruState :=
  { mem := { residence := [(1, 4), (2, 4)], evict := [], resident_size := 8,
             mem_limit := 8, trip_count := 0, peak := 8 },
    dram := { residence := [(1, 4)] }, hs := (2, [(0, 1), (1, 2)]),
    rng := [], evlog := [] }

/-- Result context of `evictSingle lruImpl [2] c6ctx`: victim 1 is
deallocated (it was DRAM-resident). -/
def c6ctx' : MCtx LruState :=
  { mem := { residence := [(2, 4)], evict := [], resident_size := 4,
             mem_limit := 8, trip_count := 0, peak := 8 },
    dram := { residence := [(1, 4)] }, hs := (2, [(1, 2)]),
    rng := [], evlog := [1] }


/-- Concrete simulator state for the evict-lock witness: tensors 1 and 2
resident (SRAM full at 12/12), tensor 1 DRAM-backed, LRU records for
both. -/
def c1wSt : SimState LruState :=
  { srams := [("acc", { residence := [(1, 4), (2, 8)], evict := [],
                        resident_size := 12, mem_limit := 12, trip_count := 0,
                        peak := 12 })],
    dram := { residence := [(1, 4)] }, hs := (2, [(0, 1), (1, 2)]),
    rng := [], trace := [], evlog := [] }


/-- Compiled postorder of either a single tree or an argument list. -/
def postorderX : Operators ⊕ OperList → List String
  | .inl op => postorderCompiled op
  | .inr l => postorderList l


/-- Concrete simulator state for the trace witness: one accelerator
region `"a"` with an 8-byte SRAM and tensor 1 backed in DRAM. -/
def c2wSt : SimState LruState :=
  { srams := [("a", SRAM.new 8)], dram := { residence := [(1, 4)] },
    hs := (0, []), rng := [], trace := [], evlog := [] }


/-- Replace the ambient random stream of a memory-level context. -/
def setCtxRng (c : MCtx S) (r : List Nat) : MCtx S := { c with rng := r }

/-- Replace the ambient random stream of a simulator state. -/
def setStRng (st : SimState S) (r : List Nat) : SimState S := { st with rng := r }

/-- Map a function over the context of either outcome. -/
def emapCtx (g : MCtx S → MCtx S) :
    Except (String × MCtx S) (MCtx S) → Except (String × MCtx S) (MCtx S)
  | .ok c => .ok (g c)
  | .error (m, c) => .error (m, g c)

/-- Map a function over the state of either outcome. -/
def emapSt (g : SimState S → SimState S) :
    Except (String × SimState S) (SimState S) →
    Except (String × SimState S) (SimState S)
  | .ok st => .ok (g st)
  | .error (m, st) => .error (m, g st)

/-- Everything observable about a simulator state except the ambient
random stream: SRAM map, DRAM, heuristic state, trace, victim log. -/
def stNoRng (st : SimState S) :
    List (String × SRAM) × DRAM × S × List String × List Nat :=
  (st.srams, st.dram, st.hs, st.trace, st.evlog)

/-- A run outcome with the ambient random stream erased. -/
def resStNoRng :
    Except (String × SimState S) (SimState S) →
    Except (String × (List (String × SRAM) × DRAM × S × List String × List Nat))
      (List (String × SRAM) × DRAM × S × List String × List Nat)
  | .ok st => .ok (stNoRng st)
  | .error (m, st) => .error (m, stNoRng st)


/-- Whether a lowering node variant records a memo entry before
returning (every emitting variant except `AccessFlatten`; the
pass-through `Access*` variants and the metadata variants record
nothing for their own id). -/
def memoizingNode : Option Lang → Bool
  | some (.RelayOperatorCall _) => true
  | some (.AcceleratorLoad _ _) => true
  | some (.AcceleratorStore _ _) => true
  | some (.AcceleratorCall _) => true
  | some (.Compute _ _) => true
  | some (.AccessPair _ _) => true
  | some (.AccessLiteral _) => true
  | some (.AccessTensor _) => true
  | _ => false


theorem sumVals_cons (p : Nat × Nat) (l : List (Nat × Nat)) :
    sumVals (p :: l) = p.2 + sumVals l := by
  simp [sumVals]

theorem lookupA_insertSorted_self (id sz : Nat) (l : List (Nat × Nat)) :
    lookupA id (insertSorted id sz l) = some sz := by
  induction l with
  | nil => simp [insertSorted, lookupA]
  | cons p rest ih =>
    by_cases h1 : id < p.1
    · simp [insertSorted, lookupA, h1]
    · by_cases h2 : id = p.1
      · simp [insertSorted, lookupA, h1, h2]
      · have h2' : ¬ p.1 = id := fun h => h2 h.symm
        simp [insertSorted, lookupA, h1, h2, h2', ih]

theorem sumVals_insertSorted_of_absent (id sz : Nat) (l : List (Nat × Nat))
    (h : lookupA id l = none) :
    sumVals (insertSorted id sz l) = sumVals l + sz := by
  induction l with
  | nil => simp [insertSorted, sumVals]
  | cons p rest ih =>
    simp only [lookupA] at h
    by_cases hpi : p.1 = id
    · simp [hpi] at h
    · simp only [if_neg hpi] at h
      by_cases h1 : id < p.1
      · simp [insertSorted, h1, sumVals_cons]; omega
      · have h2 : ¬ id = p.1 := fun hh => hpi hh.symm
        simp [insertSorted, h1, h2, sumVals_cons, ih h]; omega

theorem sumVals_removeA (id sz : Nat) (l : List (Nat × Nat))
    (h : lookupA id l = some sz) :
    sumVals l = sz + sumVals (removeA id l) := by
  induction l with
  | nil => simp [lookupA] at h
  | cons p rest ih =>
    simp only [lookupA] at h
    by_cases hpi : p.1 = id
    · simp only [if_pos hpi, Option.some.injEq] at h
      simp [removeA, hpi, sumVals_cons, h]
    · simp only [if_neg hpi] at h
      simp [removeA, hpi, sumVals_cons, ih h]; omega

theorem lookupA_memoInsert_self (k v : Nat) (m : List (Nat × Nat)) :
    lookupA k (memoInsert k v m) = some v := by
  induction m with
  | nil => simp [memoInsert, lookupA]
  | cons p rest ih =>
    by_cases hpk : p.1 = k
    · simp [memoInsert, lookupA, hpk]
    · simp [memoInsert, lookupA, hpk, ih]

theorem lruOldest_mem (l : List (Nat × Nat)) (p : Nat × Nat)
    (h : lruOldest l = some p) : p ∈ l := by
  induction l generalizing p with
  | nil => simp [lruOldest] at h
  | cons q rest ih =>
    simp only [lruOldest] at h
    cases hr : lruOldest rest with
    | none => simp [hr] at h; simp [h]
    | some r =>
      simp only [hr] at h
      by_cases hle : q.1 ≤ r.1
      · simp [hle] at h; simp [h]
      · simp [hle] at h
        subst h
        exact List.mem_cons_of_mem q (ih r hr)

/-- C7: `SRAM.store(id, evict, other)`: when `id` is resident with size
`sz` it copies `(id, sz)` into the other memory with `from_self = false`;
iff `evict` it removes `id` from the residence, adds it to the evicted
set and decrements `resident_size`; it increments `trip_count`
unconditionally (also when `evict = false`); and it is a hard error when
`id` is not resident. -/
theorem sram_store_contract (s : SRAM) (id : Nat) (ev : Bool) (d : DRAM) :
    (∀ sz, s.size_of id = some sz →
      ∃ s' d', s.store id ev d = .ok (s', d') ∧
        d' = d.put id sz false ∧
        s'.trip_count = s.trip_count + 1 ∧
        s'.mem_limit = s.mem_limit ∧
        (ev = true → s'.residence = removeA id s.residence ∧
          s'.evict = insertOnce id s.evict ∧
          s'.resident_size = s.resident_size - sz) ∧
        (ev = false → s'.residence = s.residence ∧ s'.evict = s.evict ∧
          s'.resident_size = s.resident_size)) ∧
    (s.contains id = false → s.store id ev d = .error "Evicting non-residence") := by
  constructor
  · intro sz hsz
    simp only [SRAM.size_of] at hsz
    cases ev with
    | true =>
      refine ⟨{ s with residence := removeA id s.residence,
                       evict := insertOnce id s.evict,
                       resident_size := s.resident_size - sz,
                       trip_count := s.trip_count + 1 }, d.put id sz false,
        ?_, rfl, rfl, rfl, ?_, ?_⟩
      · simp [SRAM.store, hsz]
      · intro _; exact ⟨rfl, rfl, rfl⟩
      · intro h; cases h
    | false =>
      refine ⟨{ s with trip_count := s.trip_count + 1 }, d.put id sz false,
        ?_, rfl, rfl, rfl, ?_, ?_⟩
      · simp [SRAM.store, hsz]
      · intro h; cases h
      · intro _; exact ⟨rfl, rfl, rfl⟩
  · intro hc
    have hnone : lookupA id s.residence = none := by
      cases hl : lookupA id s.residence with
      | none => rfl
      | some _ => simp [SRAM.contains, hl] at hc
    simp [SRAM.store, hnone]

/-- Witness for `sram_store_contract` at a concrete resident tensor. -/
theorem sram_store_contract_witness :
    ({ residence := [(3, 5)], evict := [], resident_size := 5, mem_limit := 8,
       trip_count := 2, peak := 5 } : SRAM).size_of 3 = some 5 ∧
    (∃ s' d', ({ residence := [(3, 5)], evict := [], resident_size := 5,
                 mem_limit := 8, trip_count := 2, peak := 5 } : SRAM).store 3 true
        DRAM.new = .ok (s', d') ∧ s'.trip_count = 3) := by
  refine ⟨by decide, ?_⟩
  obtain ⟨s', d', hrun, _, htrip, -⟩ :=
    (sram_store_contract { residence := [(3, 5)], evict := [], resident_size := 5,
                           mem_limit := 8, trip_count := 2, peak := 5 }
      3 true DRAM.new).1 5 (by decide)
  exact ⟨s', d', hrun, by rw [htrip]⟩

/-- C8: `put(id, size, from_self)`: on SRAM it is a hard error when
`resident_size + size > capacity`, it requires `id` not already
resident, and otherwise records the residence, adds `size` to
`resident_size`, and increments `trip_count` iff `from_self = false`;
on DRAM `put` is total (always succeeds) and records the residence. -/
theorem put_contract (s : SRAM) (d : DRAM) (id sz : Nat) (fs : Bool) :
    (s.resident_size + sz > s.mem_limit → s.put id sz fs = .error "OOM on SRAM") ∧
    (s.resident_size + sz ≤ s.mem_limit → s.contains id = true →
      s.put id sz fs = .error "assert failed: id already resident") ∧
    (s.resident_size + sz ≤ s.mem_limit → s.contains id = false →
      ∃ s', s.put id sz fs = .ok s' ∧
        s'.residence = insertSorted id sz s.residence ∧
        s'.resident_size = s.resident_size + sz ∧
        s'.trip_count = (if fs then s.trip_count else s.trip_count + 1) ∧
        s'.mem_limit = s.mem_limit ∧ s'.evict = s.evict) ∧
    ((d.put id sz fs).residence = insertSorted id sz d.residence ∧
      (d.put id sz fs).contains id = true) := by
  refine ⟨?_, ?_, ?_, rfl, ?_⟩
  · intro h
    have : ¬ sz + s.resident_size ≤ s.mem_limit := by omega
    simp [SRAM.put, this]
  · intro h hc
    have h' : sz + s.resident_size ≤ s.mem_limit := by omega
    simp [SRAM.put, h', hc]
  · intro h hc
    have h' : sz + s.resident_size ≤ s.mem_limit := by omega
    refine ⟨{ s with residence := insertSorted id sz s.residence,
                     resident_size := s.resident_size + sz,
                     trip_count := if fs then s.trip_count else s.trip_count + 1,
                     peak := max s.peak (s.resident_size + sz) },
      ?_, rfl, rfl, rfl, rfl, rfl⟩
    simp [SRAM.put, h', hc]
  · simp [DRAM.put, DRAM.contains, lookupA_insertSorted_self]

/-- Witness for `put_contract` at a concrete input. -/
theorem put_contract_witness :
    (SRAM.new 10).resident_size + 4 ≤ (SRAM.new 10).mem_limit ∧
    (SRAM.new 10).contains 1 = false ∧
    (∃ s', (SRAM.new 10).put 1 4 false = .ok s' ∧
      s'.resident_size = (SRAM.new 10).resident_size + 4) := by
  refine ⟨by decide, by decide, ?_⟩
  obtain ⟨s', hrun, -, hrs, -⟩ :=
    (put_contract (SRAM.new 10) DRAM.new 1 4 false).2.2.1 (by decide) (by decide)
  exact ⟨s', hrun, hrs⟩

/-- C9 (amended): `SRAM.reset` empties the residence map and the evicted
set and zeroes `resident_size`, leaving the capacity unchanged — but it
also leaves `trip_count` unchanged (the source never touches it), so the
counter is NOT reset to zero. -/
theorem sram_reset_clears_except_capacity_and_trips (s : SRAM) :
    s.reset.residence = [] ∧ s.reset.evict = [] ∧ s.reset.resident_size = 0 ∧
    s.reset.mem_limit = s.mem_limit ∧ s.reset.trip_count = s.trip_count := by
  exact ⟨rfl, rfl, rfl, rfl, rfl⟩

/-- C9 counterexample: a reachable SRAM (one `put` with
`from_self = false` after `new`) has `trip_count = 1`, and `reset` keeps
it at 1, contradicting "after reset ... trip_count is 0". -/
theorem sram_reset_keeps_trip_count_cex :
    (SRAM.new 10).put 1 4 false =
      .ok { residence := [(1, 4)], evict := [], resident_size := 4,
            mem_limit := 10, trip_count := 1, peak := 4 } ∧
    ({ residence := [(1, 4)], evict := [], resident_size := 4, mem_limit := 10,
       trip_count := 1, peak := 4 } : SRAM).reset.trip_count = 1 ∧
    ¬ ({ residence := [(1, 4)], evict := [], resident_size := 4, mem_limit := 10,
         trip_count := 1, peak := 4 } : SRAM).reset.trip_count = 0 := by
  refine ⟨rfl, rfl, by decide⟩

/-- C3: for every reachable SRAM state — at every boundary of `put`,
`store`, `deallocate` and `reset` — `resident_size` equals the sum of
the sizes recorded in the residence map and is at most the capacity. -/
theorem sram_resident_size_invariant (s : SRAM) (h : ReachableSRAM s) :
    s.resident_size = sumVals s.residence ∧ s.resident_size ≤ s.mem_limit := by
  induction h with
  | new cap => simp [SRAM.new, sumVals]
  | put hs hp ih =>
    rename_i s s' id sz fs
    simp only [SRAM.put] at hp
    split at hp
    · split at hp
      · cases hp
      · rename_i hcap hc
        cases hp
        have hnone : lookupA id s.residence = none := by
          cases hl : lookupA id s.residence with
          | none => rfl
          | some _ => simp [SRAM.contains, hl] at hc
        have hsum := sumVals_insertSorted_of_absent id sz s.residence hnone
        obtain ⟨ih1, ih2⟩ := ih
        refine ⟨?_, ?_⟩
        · show s.resident_size + sz = sumVals (insertSorted id sz s.residence)
          omega
        · show s.resident_size + sz ≤ s.mem_limit
          omega
    · cases hp
  | store hs hp ih =>
    rename_i s s' id ev d d'
    simp only [SRAM.store] at hp
    cases hl : lookupA id s.residence with
    | none => rw [hl] at hp; cases hp
    | some sz =>
      rw [hl] at hp
      have hsum := sumVals_removeA id sz s.residence hl
      obtain ⟨ih1, ih2⟩ := ih
      cases ev with
      | true =>
        simp only [if_pos rfl, Except.ok.injEq, Prod.mk.injEq] at hp
        obtain ⟨h1, -⟩ := hp
        subst h1
        refine ⟨?_, ?_⟩
        · show s.resident_size - sz = sumVals (removeA id s.residence)
          omega
        · show s.resident_size - sz ≤ s.mem_limit
          omega
      | false =>
        simp only [Bool.false_eq_true, if_neg, ite_false, Except.ok.injEq,
          Prod.mk.injEq] at hp
        obtain ⟨h1, -⟩ := hp
        subst h1
        exact ⟨ih1, ih2⟩
  | dealloc hs hp ih =>
    rename_i s s' id
    simp only [SRAM.deallocate] at hp
    cases hl : lookupA id s.residence with
    | none => rw [hl] at hp; cases hp
    | some sz =>
      rw [hl] at hp
      cases hp
      have hsum := sumVals_removeA id sz s.residence hl
      obtain ⟨ih1, ih2⟩ := ih
      refine ⟨?_, ?_⟩
      · show s.resident_size - sz = sumVals (removeA id s.residence)
        omega
      · show s.resident_size - sz ≤ s.mem_limit
        omega
  | reset hs ih =>
    simp [SRAM.reset, sumVals]

/-- Witness for `sram_resident_size_invariant` at the freshly created
SRAM. -/
theorem sram_resident_size_invariant_witness :
    ReachableSRAM (SRAM.new 8) ∧
    ((SRAM.new 8).resident_size = sumVals (SRAM.new 8).residence ∧
      (SRAM.new 8).resident_size ≤ (SRAM.new 8).mem_limit) :=
  ⟨ReachableSRAM.new 8, sram_resident_size_invariant (SRAM.new 8) (ReachableSRAM.new 8)⟩


theorem deallocate_eq_of_lookup (m : SRAM) (v sz : Nat)
    (hl : lookupA v m.residence = some sz) :
    m.deallocate v = .ok { m with residence := removeA v m.residence,
                                  resident_size := m.resident_size - sz } := by
  simp [SRAM.deallocate, hl]

theorem store_evict_eq_of_lookup (m : SRAM) (v sz : Nat) (d : DRAM)
    (hl : lookupA v m.residence = some sz) :
    m.store v true d = .ok ({ m with residence := removeA v m.residence,
                                     evict := insertOnce v m.evict,
                                     resident_size := m.resident_size - sz,
                                     trip_count := m.trip_count + 1 },
                            d.put v sz false) := by
  simp [SRAM.store, hl]

theorem randomImpl_respects_exclude : RespectsExclude randomImpl := by
  intro s snapshot exclude rng v rng' h
  simp only [randomImpl, randomChoose] at h
  split at h
  · rename_i hlen
    simp only [Prod.mk.injEq, Option.some.injEq] at h
    obtain ⟨hv, -⟩ := h
    subst hv
    have hidx : rng.headD 0 % (snapshot.filter (fun x => decide (x ∉ exclude))).length <
        (snapshot.filter (fun x => decide (x ∉ exclude))).length :=
      Nat.mod_lt _ hlen
    have hmem : (snapshot.filter (fun x => decide (x ∉ exclude))).getD
        (rng.headD 0 % (snapshot.filter (fun x => decide (x ∉ exclude))).length) 0 ∈
        snapshot.filter (fun x => decide (x ∉ exclude)) := by
      rw [List.getD_eq_getElem _ 0 hidx]
      exact List.getElem_mem hidx
    exact of_decide_eq_true (List.mem_filter.mp hmem).2
  · simp at h

theorem lruImpl_respects_exclude : RespectsExclude lruImpl := by
  intro s snapshot exclude rng v rng' h
  simp only [lruImpl, lruChoose] at h
  obtain ⟨h1, -⟩ := Prod.mk.injEq .. |>.mp h
  cases ho : lruOldest (s.2.filter (fun p => decide (p.2 ∉ exclude))) with
  | none => rw [ho] at h1; cases h1
  | some p =>
    rw [ho] at h1
    simp only [Option.map_some', Option.some.injEq] at h1
    subst h1
    exact of_decide_eq_true (List.mem_filter.mp (lruOldest_mem _ p ho)).2

/-- C6: `evict_single(exclude, mem, dram)`: (a) both source heuristics
only propose victims outside `exclude`; (b) for any heuristic respecting
the exclude set, a successful `evictSingle` acted on a victim that was
resident in `mem` and outside `exclude`, appended it to the ghost victim
log, notified `heuristic.evict`, and either deallocated it with no DRAM
write (victim already DRAM-resident) or stored it back with
`evict = true` (residence removed, audit set extended, `trip_count`
incremented, DRAM written); (c) when the heuristic returns no victim the
call fails with the thrashing error — in particular the random heuristic
thrashes exactly when no non-excluded resident exists, and LRU thrashes
when its records are resident but every resident is excluded. -/
theorem evict_single_contract :
    RespectsExclude randomImpl ∧ RespectsExclude lruImpl ∧
    (∀ (S : Type) (h : HeuristicImpl S), RespectsExclude h →
      ∀ (exclude : List Nat) (c c' : MCtx S),
        evictSingle h exclude c = .ok c' →
        ∃ v rng',
          h.choose c.hs c.mem.toVec exclude c.rng = (some v, rng') ∧
          v ∉ exclude ∧ c.mem.contains v = true ∧
          c'.evlog = c.evlog ++ [v] ∧
          c'.hs = h.evict c.hs v ∧
          (c.dram.contains v = true →
            c'.dram = c.dram ∧
            c'.mem.residence = removeA v c.mem.residence ∧
            c'.mem.trip_count = c.mem.trip_count ∧ c'.mem.evict = c.mem.evict) ∧
          (c.dram.contains v = false →
            (∃ sz, c.mem.size_of v = some sz ∧ c'.dram = c.dram.put v sz false) ∧
            c'.mem.residence = removeA v c.mem.residence ∧
            c'.mem.trip_count = c.mem.trip_count + 1 ∧
            c'.mem.evict = insertOnce v c.mem.evict)) ∧
    (∀ (S : Type) (h : HeuristicImpl S) (exclude : List Nat) (c : MCtx S)
      (rng' : List Nat),
      h.choose c.hs c.mem.toVec exclude c.rng = (none, rng') →
      evictSingle h exclude c = .error ("Thrashes here...", { c with rng := rng' })) ∧
    (∀ (exclude : List Nat) (c : MCtx Unit),
      c.mem.toVec.filter (fun x => decide (x ∉ exclude)) = [] →
      evictSingle randomImpl exclude c = .error ("Thrashes here...", c)) ∧
    (∀ (exclude : List Nat) (c : MCtx LruState),
      (∀ p ∈ c.hs.2, (p : Nat × Nat).2 ∈ c.mem.toVec) →
      (∀ x ∈ c.mem.toVec, x ∈ exclude) →
      evictSingle lruImpl exclude c = .error ("Thrashes here...", c)) := by
  refine ⟨randomImpl_respects_exclude, lruImpl_respects_exclude, ?_, ?_, ?_, ?_⟩
  · intro S h hre exclude c c' hok
    unfold evictSingle at hok
    cases hch : h.choose c.hs c.mem.toVec exclude c.rng with
    | mk o rng' =>
      rw [hch] at hok
      cases o with
      | none => cases hok
      | some v =>
        dsimp only at hok
        refine ⟨v, rng', rfl, hre _ _ _ _ _ _ hch, ?_⟩
        cases hl : lookupA v c.mem.residence with
        | none =>
          exfalso
          have hde : c.mem.deallocate v =
              .error "assert failed: deallocating non-residence" := by
            simp [SRAM.deallocate, hl]
          have hse : c.mem.store v true c.dram = .error "Evicting non-residence" := by
            simp [SRAM.store, hl]
          by_cases hd : c.dram.contains v = true
          · rw [if_pos hd, hde] at hok; cases hok
          · rw [if_neg hd, hse] at hok; cases hok
        | some sz =>
          by_cases hd : c.dram.contains v = true
          · rw [if_pos hd, deallocate_eq_of_lookup c.mem v sz hl] at hok
            dsimp only at hok
            cases hok
            refine ⟨by simp [SRAM.contains, hl], rfl, rfl, ?_, ?_⟩
            · intro _; exact ⟨rfl, rfl, rfl, rfl⟩
            · intro hdf; rw [hdf] at hd; cases hd
          · rw [if_neg hd, store_evict_eq_of_lookup c.mem v sz c.dram hl] at hok
            dsimp only at hok
            cases hok
            refine ⟨by simp [SRAM.contains, hl], rfl, rfl, ?_, ?_⟩
            · intro hdt; exact absurd hdt hd
            · intro _
              exact ⟨⟨sz, by simp [SRAM.size_of, hl], rfl⟩, rfl, rfl, rfl⟩
  · intro S h exclude c rng' hch
    unfold evictSingle
    rw [hch]
  · intro exclude c hfil
    have hch : randomImpl.choose c.hs c.mem.toVec exclude c.rng = (none, c.rng) := by
      show randomChoose c.mem.toVec exclude c.rng = (none, c.rng)
      unfold randomChoose
      rw [hfil]
      rfl
    unfold evictSingle
    rw [hch]
  · intro exclude c hsub hall
    have hfil : c.hs.2.filter (fun p => decide (p.2 ∉ exclude)) = [] := by
      rw [List.filter_eq_nil_iff]
      intro p hp
      simp only [decide_not, Bool.not_eq_true', decide_eq_false_iff_not, not_not]
      exact hall p.2 (hsub p hp)
    have hch : lruImpl.choose c.hs c.mem.toVec exclude c.rng = (none, c.rng) := by
      show (lruChoose c.hs exclude, c.rng) = (none, c.rng)
      unfold lruChoose
      rw [hfil]
      rfl
    unfold evictSingle
    rw [hch]

/-- Witness for `evict_single_contract` at a concrete eviction. -/
theorem evict_single_contract_witness :
    ∃ v rng',
      lruImpl.choose c6ctx.hs c6ctx.mem.toVec [2] c6ctx.rng = (some v, rng') ∧
      v ∉ [2] ∧ c6ctx.mem.contains v = true ∧
      c6ctx'.evlog = c6ctx.evlog ++ [v] ∧
      c6ctx'.hs = lruImpl.evict c6ctx.hs v ∧
      (c6ctx.dram.contains v = true →
        c6ctx'.dram = c6ctx.dram ∧
        c6ctx'.mem.residence = removeA v c6ctx.mem.residence ∧
        c6ctx'.mem.trip_count = c6ctx.mem.trip_count ∧
        c6ctx'.mem.evict = c6ctx.mem.evict) ∧
      (c6ctx.dram.contains v = false →
        (∃ sz, c6ctx.mem.size_of v = some sz ∧
          c6ctx'.dram = c6ctx.dram.put v sz false) ∧
        c6ctx'.mem.residence = removeA v c6ctx.mem.residence ∧
        c6ctx'.mem.trip_count = c6ctx.mem.trip_count + 1 ∧
        c6ctx'.mem.evict = insertOnce v c6ctx.mem.evict) :=
  evict_single_contract.2.2.1 LruState lruImpl evict_single_contract.2.1
    [2] c6ctx c6ctx' rfl

/-- C4 (amended): for a tensor resident in an SRAM, `store(id, false,
dram)` followed by `rematerialize(id)` leaves the SRAM residency
unchanged, writes the copy into DRAM (`dram.put id sz false`), and
increases that SRAM's `trip_count` by exactly ONE — the store-out.  No
load-back occurs: with `evict = false` the tensor never left SRAM, so
`rematerialize` only touches the heuristic and changes neither memory. -/
theorem store_then_rematerialize_one_trip (S : Type) (h : HeuristicImpl S)
    (s : SRAM) (d : DRAM) (id sz : Nat) (exclude : List Nat) (hs : S)
    (rng evlog : List Nat) (hsz : s.size_of id = some sz) :
    ∃ s1 d1,
      s.store id false d = .ok (s1, d1) ∧
      s1.residence = s.residence ∧
      s1.trip_count = s.trip_count + 1 ∧
      d1 = d.put id sz false ∧
      rematerialize h id exclude
        { mem := s1, dram := d1, hs := hs, rng := rng, evlog := evlog } =
        .ok { mem := s1, dram := d1, hs := h.touch hs id sz, rng := rng,
              evlog := evlog } := by
  simp only [SRAM.size_of] at hsz
  refine ⟨{ s with trip_count := s.trip_count + 1 }, d.put id sz false,
    by simp [SRAM.store, hsz], rfl, rfl, rfl, ?_⟩
  unfold rematerialize
  simp [SRAM.contains, SRAM.size_of, hsz]

/-- C4 counterexample: with tensor 1 (size 4) resident and DRAM
initially empty, `store(1, false, dram)` followed by `rematerialize 1`
increases `trip_count` by exactly one (0 to 1), not two, and DRAM
residency changes: it gains tensor 1. -/
theorem store_then_rematerialize_cex :
    ({ residence := [(1, 4)], evict := [], resident_size := 4, mem_limit := 10,
       trip_count := 0, peak := 4 } : SRAM).store 1 false DRAM.new =
      .ok (rtCtx.mem, rtCtx.dram) ∧
    rematerialize lruImpl 1 [] rtCtx =
      .ok { rtCtx with hs := lruImpl.touch rtCtx.hs 1 4 } ∧
    rtCtx.mem.trip_count = 1 ∧
    ¬ rtCtx.mem.trip_count = 2 ∧
    DRAM.new.contains 1 = false ∧ rtCtx.dram.contains 1 = true :=
  ⟨rfl, rfl, rfl, by decide, rfl, rfl⟩

/-- Witness for `store_then_rematerialize_one_trip` at a concrete
resident tensor. -/
theorem store_then_rematerialize_one_trip_witness :
    ({ residence := [(1, 4)], evict := [], resident_size := 4, mem_limit := 10,
       trip_count := 0, peak := 4 } : SRAM).size_of 1 = some 4 ∧
    (∃ s1 d1,
      ({ residence := [(1, 4)], evict := [], resident_size := 4, mem_limit := 10,
         trip_count := 0, peak := 4 } : SRAM).store 1 false DRAM.new = .ok (s1, d1) ∧
      s1.residence = [(1, 4)] ∧
      s1.trip_count = 0 + 1 ∧
      d1 = DRAM.new.put 1 4 false ∧
      rematerialize lruImpl 1 []
        { mem := s1, dram := d1, hs := (0, []), rng := [], evlog := [] } =
        .ok { mem := s1, dram := d1, hs := lruImpl.touch (0, []) 1 4, rng := [],
              evlog := [] }) := by
  refine ⟨by decide, ?_⟩
  exact store_then_rematerialize_one_trip LruState lruImpl
    { residence := [(1, 4)], evict := [], resident_size := 4, mem_limit := 10,
      trip_count := 0, peak := 4 } DRAM.new 1 4 [] (0, []) [] [] (by decide)

theorem evictSingle_evlog (S : Type) (h : HeuristicImpl S)
    (hre : RespectsExclude h) (exclude : List Nat) (c : MCtx S) :
    ∀ v ∈ ctxEvlogOf (evictSingle h exclude c), v ∈ c.evlog ∨ v ∉ exclude := by
  intro v hv
  unfold evictSingle at hv
  cases hch : h.choose c.hs c.mem.toVec exclude c.rng with
  | mk o rng' =>
    rw [hch] at hv
    cases o with
    | none =>
      left
      simpa [ctxEvlogOf, ctxOf] using hv
    | some w =>
      have hw : w ∉ exclude := hre _ _ _ _ _ _ hch
      dsimp only at hv
      have hv' : v ∈ c.evlog ++ [w] := by
        split at hv
        · cases hde : c.mem.deallocate w with
          | ok m => rw [hde] at hv; simpa [ctxEvlogOf, ctxOf] using hv
          | error e => rw [hde] at hv; simpa [ctxEvlogOf, ctxOf] using hv
        · cases hst : c.mem.store w true c.dram with
          | ok md => rw [hst] at hv; simpa [ctxEvlogOf, ctxOf] using hv
          | error e => rw [hst] at hv; simpa [ctxEvlogOf, ctxOf] using hv
      rcases List.mem_append.mp hv' with h1 | h2
      · exact Or.inl h1
      · right
        have hvw : v = w := by simpa using h2
        rw [hvw]
        exact hw

theorem allocateLoop_evlog (S : Type) (h : HeuristicImpl S)
    (hre : RespectsExclude h) (exclude : List Nat) :
    ∀ (fuel size : Nat) (c : MCtx S),
      ∀ v ∈ ctxEvlogOf (allocateLoop h fuel size exclude c),
        v ∈ c.evlog ∨ v ∉ exclude := by
  intro fuel
  induction fuel with
  | zero =>
    intro size c v hv
    left
    simpa [allocateLoop, ctxEvlogOf, ctxOf] using hv
  | succ n ih =>
    intro size c v hv
    unfold allocateLoop at hv
    split at hv
    · cases hes : evictSingle h exclude c with
      | ok c1 =>
        rw [hes] at hv
        rcases ih size c1 v hv with h1 | h2
        · exact evictSingle_evlog S h hre exclude c v (by rw [hes]; exact h1)
        · exact Or.inr h2
      | error e =>
        rw [hes] at hv
        exact evictSingle_evlog S h hre exclude c v (by rw [hes]; exact hv)
    · exact Or.inl hv

theorem allocateBuffer_evlog (S : Type) (h : HeuristicImpl S)
    (hre : RespectsExclude h) (exclude : List Nat) (size : Nat) (c : MCtx S) :
    ∀ v ∈ ctxEvlogOf (allocateBuffer h size exclude c),
      v ∈ c.evlog ∨ v ∉ exclude :=
  allocateLoop_evlog S h hre exclude (c.mem.residence.length + 1) size c

theorem liftOpRun_evlog (S : Type) (op : Operators) (c : MCtx S) :
    ctxEvlogOf (liftOpRun op c) = c.evlog := by
  rcases hor : opRun op (some c.mem) c.dram with e | ⟨mo, d⟩ <;>
    simp [liftOpRun, hor, ctxEvlogOf, ctxOf]

theorem rematerialize_evlog (S : Type) (h : HeuristicImpl S)
    (hre : RespectsExclude h) (data : Nat) (exclude : List Nat) (c : MCtx S) :
    ∀ v ∈ ctxEvlogOf (rematerialize h data exclude c),
      v ∈ c.evlog ∨ v ∉ exclude := by
  intro v hv
  unfold rematerialize at hv
  by_cases hc : c.mem.contains data = true
  · rw [if_pos hc] at hv
    dsimp only at hv
    split at hv
    · exact Or.inl hv
    · exact Or.inl hv
  · rw [if_neg hc] at hv
    cases hg : c.dram.get data with
    | error e =>
      rw [hg] at hv
      exact Or.inl hv
    | ok ds =>
      rw [hg] at hv
      dsimp only at hv
      cases hab : allocateBuffer h ds exclude c with
      | error e =>
        rw [hab] at hv
        exact allocateBuffer_evlog S h hre exclude ds c v (by rw [hab]; exact hv)
      | ok c1 =>
        rw [hab] at hv
        dsimp only at hv
        have hin : v ∈ c1.evlog → v ∈ c.evlog ∨ v ∉ exclude := fun hx =>
          allocateBuffer_evlog S h hre exclude ds c v (by rw [hab]; exact hx)
        cases hput : c1.mem.put data ds false with
        | error e =>
          rw [hput] at hv
          exact hin hv
        | ok m =>
          rw [hput] at hv
          dsimp only at hv
          split at hv
          · exact hin hv
          · exact hin hv

theorem argStep_evlog (S : Type) (h : HeuristicImpl S)
    (hre : RespectsExclude h) (exclude : List Nat) (arg : Nat) (c : MCtx S) :
    ∀ v ∈ ctxEvlogOf (argStep h exclude arg c), v ∈ c.evlog ∨ v ∉ exclude := by
  intro v hv
  unfold argStep at hv
  split at hv
  · split at hv
    · exact Or.inl hv
    · exact Or.inl hv
  · exact rematerialize_evlog S h hre arg exclude c v hv

theorem processArgs_evlog (S : Type) (h : HeuristicImpl S)
    (hre : RespectsExclude h) (exclude : List Nat) :
    ∀ (ids : List Nat) (c : MCtx S),
      ∀ v ∈ ctxEvlogOf (processArgs h exclude ids c),
        v ∈ c.evlog ∨ v ∉ exclude := by
  intro ids
  induction ids with
  | nil => intro c v hv; exact Or.inl hv
  | cons a rest ih =>
    intro c v hv
    unfold processArgs at hv
    cases hstep : argStep h exclude a c with
    | error e =>
      rw [hstep] at hv
      exact argStep_evlog S h hre exclude a c v (by rw [hstep]; exact hv)
    | ok c1 =>
      rw [hstep] at hv
      rcases ih c1 v hv with h1 | h2
      · exact argStep_evlog S h hre exclude a c v (by rw [hstep]; exact h1)
      · exact Or.inr h2

theorem computeCtx_evlog (S : Type) (h : HeuristicImpl S)
    (hre : RespectsExclude h) (op : Operators) (dst : Nat) (args : OperList)
    (size : Nat) (c : MCtx S) :
    ∀ v ∈ ctxEvlogOf (computeCtx h op dst args size c),
      v ∈ c.evlog ∨ v ∉ args.ids := by
  intro v hv
  unfold computeCtx at hv
  dsimp only at hv
  cases hpa : processArgs h args.ids args.ids c with
  | error e =>
    rw [hpa] at hv
    exact processArgs_evlog S h hre args.ids args.ids c v (by rw [hpa]; exact hv)
  | ok c1 =>
    rw [hpa] at hv
    dsimp only at hv
    have hin1 : v ∈ c1.evlog → v ∈ c.evlog ∨ v ∉ args.ids := fun hx =>
      processArgs_evlog S h hre args.ids args.ids c v (by rw [hpa]; exact hx)
    cases hab : allocateBuffer h size args.ids c1 with
    | error e =>
      rw [hab] at hv
      rcases allocateBuffer_evlog S h hre args.ids size c1 v
        (by rw [hab]; exact hv) with h1 | h2
      · exact hin1 h1
      · exact Or.inr h2
    | ok c2 =>
      rw [hab] at hv
      dsimp only at hv
      have hin2 : v ∈ c2.evlog → v ∈ c.evlog ∨ v ∉ args.ids := fun hx => by
        rcases allocateBuffer_evlog S h hre args.ids size c1 v
          (by rw [hab]; exact hx) with h1 | h2
        · exact hin1 h1
        · exact Or.inr h2
      cases hlr : liftOpRun op c2 with
      | error e =>
        rw [hlr] at hv
        have heq : ctxEvlogOf (Except.error e : Except (String × MCtx S) (MCtx S)) =
            c2.evlog := by
          rw [← hlr]; exact liftOpRun_evlog S op c2
        rw [heq] at hv
        exact hin2 hv
      | ok c3 =>
        rw [hlr] at hv
        have heq : ctxEvlogOf (Except.ok c3 : Except (String × MCtx S) (MCtx S)) =
            c2.evlog := by
          rw [← hlr]; exact liftOpRun_evlog S op c2
        exact hin2 (by rw [← heq]; exact hv)

/-- C1 (amended): the pin set built by `JitSim::run` for a `Compute` is
passed down to the recursive child runs but never consumed — every
`perform_op` call made by `run` uses an empty exclude set, so an
eviction inside a child sub-tree may evict the outer `Compute`'s
immediate arguments (see the counterexample).  The exclusion the code
does enforce is `perform_op`'s own `evict_lock`: during `perform_op` of
a `Compute` — rematerialization of its arguments and allocation of its
output — every victim selected by `evictSingle` is outside that
`Compute`'s immediate-argument ids, for any heuristic whose `choose`
respects the exclude set (both source heuristics do, by
`evict_single_contract`). -/
theorem compute_evictions_respect_evict_lock (S : Type) (h : HeuristicImpl S)
    (hre : RespectsExclude h) (region : String) (opid dst : Nat)
    (args : OperList) (size : Nat) (exclude : List Nat) (st : SimState S) :
    ∀ v ∈ evlogOf (performOp h (.Compute region opid dst args size) exclude st),
      v ∈ st.evlog ∨ v ∉ args.ids := by
  intro v hv
  unfold performOp at hv
  dsimp only at hv
  by_cases hreg : region = "host"
  · rw [if_pos hreg] at hv
    cases hor : opRun (.Compute region opid dst args size) none st.dram with
    | error e => rw [hor] at hv; exact Or.inl hv
    | ok p =>
      rcases p with ⟨mo, d'⟩
      rw [hor] at hv
      dsimp only at hv
      exact Or.inl hv
  · rw [if_neg hreg] at hv
    unfold withMem at hv
    cases hls : lookupS region st.srams with
    | none => rw [hls] at hv; exact Or.inl hv
    | some m =>
      rw [hls] at hv
      dsimp only at hv
      cases hk : computeCtx h (.Compute region opid dst args size) dst args size
          ⟨m, st.dram, st.hs, st.rng, st.evlog⟩ with
      | ok c =>
        rw [hk] at hv
        dsimp only at hv
        exact computeCtx_evlog S h hre _ dst args size
          ⟨m, st.dram, st.hs, st.rng, st.evlog⟩ v (by rw [hk]; exact hv)
      | error e =>
        rcases e with ⟨msg, cc⟩
        rw [hk] at hv
        dsimp only at hv
        exact computeCtx_evlog S h hre _ dst args size
          ⟨m, st.dram, st.hs, st.rng, st.evlog⟩ v (by rw [hk]; exact hv)

/-- Witness for `compute_evictions_respect_evict_lock`: a full SRAM must
evict to make room for the compute output; LRU selects tensor 1, which
is outside the argument ids `[2]`. -/
theorem compute_evictions_respect_evict_lock_witness :
    evlogOf (performOp lruImpl (.Compute "acc" 9 5 (.cons 2 .NoOp .nil) 4) []
      c1wSt) = [1] ∧
    (1 ∈ evlogOf (performOp lruImpl (.Compute "acc" 9 5 (.cons 2 .NoOp .nil) 4) []
        c1wSt) →
      1 ∈ c1wSt.evlog ∨ 1 ∉ OperList.ids (.cons 2 .NoOp .nil)) := by
  refine ⟨rfl, ?_⟩
  intro hv
  exact compute_evictions_respect_evict_lock LruState lruImpl
    lruImpl_respects_exclude "acc" 9 5 (.cons 2 .NoOp .nil) 4 [] c1wSt 1 hv

/-- C1 counterexample: in the pin scenario (`pinCexOp`, 12-byte SRAM,
LRU) the run completes and the victim log is `[1, 2]`; victim 1 — an
immediate argument of the outer `Compute`, hence in the pin set `run`
passes down — is selected by `evictSingle` already during the child
phase (`runArgs` over the sub-operator trees logs `[1]`), because `run`
invokes `perform_op` with an empty exclude set. -/
theorem run_pin_not_respected_cex :
    resultIsOk (runOps lruImpl 20 [] pinCexOp pinCexSt) = true ∧
    evlogOf (runOps lruImpl 20 [] pinCexOp pinCexSt) = [1, 2] ∧
    evlogOf (runArgs lruImpl 19 pinCexArgs.ids pinCexArgs pinCexSt) = [1] ∧
    1 ∈ pinCexArgs.ids := by
  exact ⟨rfl, rfl, rfl, by decide⟩

theorem withMem_trace (S : Type) (region : String) (st : SimState S)
    (k : MCtx S → Except (String × MCtx S) (MCtx S)) :
    (stateOf (withMem region st k)).trace = st.trace := by
  unfold withMem
  cases hls : lookupS region st.srams with
  | none => rfl
  | some m =>
    dsimp only
    cases hk : k ⟨m, st.dram, st.hs, st.rng, st.evlog⟩ with
    | ok c => rfl
    | error e => rcases e with ⟨msg, c⟩; rfl

theorem performOp_trace (S : Type) (h : HeuristicImpl S) (op : Operators)
    (exclude : List Nat) (st : SimState S) :
    (stateOf (performOp h op exclude st)).trace = st.trace := by
  cases op with
  | NoOp => rfl
  | Compute r o dst args sz =>
    unfold performOp
    dsimp only
    by_cases hreg : r = "host"
    · rw [if_pos hreg]
      cases hor : opRun (.Compute r o dst args sz) none st.dram with
      | error e => rfl
      | ok p => rcases p with ⟨mo, d'⟩; rfl
    · rw [if_neg hreg]
      exact withMem_trace S r st _
  | Load r d sub sz =>
    unfold performOp
    dsimp only
    by_cases hreg : r = "host"
    · rw [if_pos hreg]
      cases hor : opRun (.Load r d sub sz) none st.dram with
      | error e => rfl
      | ok p => rcases p with ⟨mo, d'⟩; rfl
    · rw [if_neg hreg]
      exact withMem_trace S r st _
  | Store r ev d sub sz =>
    unfold performOp
    dsimp only
    by_cases hreg : r = "host"
    · rw [if_pos hreg]; rfl
    · rw [if_neg hreg]
      exact withMem_trace S r st _

theorem runAO_trace (S : Type) (h : HeuristicImpl S) :
    ∀ (fuel : Nat) (pin : List Nat) (x : Operators ⊕ OperList) (st : SimState S),
      (resultIsOk (runAO h fuel pin x st) = true →
        traceOf (runAO h fuel pin x st) = st.trace ++ postorderX x) ∧
      (∃ l, traceOf (runAO h fuel pin x st) = st.trace ++ l) := by
  intro fuel
  induction fuel with
  | zero =>
    intro pin x st
    constructor
    · intro hok; simp [runAO, resultIsOk] at hok
    · exact ⟨[], by simp [runAO, traceOf, stateOf]⟩
  | succ n ih =>
    intro pin x st
    cases x with
    | inr l =>
      cases l with
      | nil =>
        constructor
        · intro _
          simp [runAO, traceOf, stateOf, postorderX, postorderList]
        · exact ⟨[], by simp [runAO, traceOf, stateOf]⟩
      | cons i op rest =>
        have hbody : runAO h (n + 1) pin (.inr (.cons i op rest)) st =
            (match runAO h n pin (.inl op) st with
             | .error e => .error e
             | .ok st' => runAO h n pin (.inr rest) st') := rfl
        rw [hbody]
        cases hrec : runAO h n pin (.inl op) st with
        | error e =>
          constructor
          · intro hok; simp [resultIsOk] at hok
          · obtain ⟨l1, hl1⟩ := (ih pin (.inl op) st).2
            rw [hrec] at hl1
            exact ⟨l1, hl1⟩
        | ok st1 =>
          have h1 : st1.trace = st.trace ++ postorderCompiled op := by
            have := (ih pin (.inl op) st).1 (by rw [hrec]; rfl)
            rw [hrec] at this
            exact this
          constructor
          · intro hok
            have h2 := (ih pin (.inr rest) st1).1 hok
            rw [h2, h1, postorderX, postorderX, postorderList, List.append_assoc]
          · obtain ⟨l2, hl2⟩ := (ih pin (.inr rest) st1).2
            exact ⟨postorderCompiled op ++ l2, by rw [hl2, h1, List.append_assoc]⟩
    | inl op =>
      cases op with
      | NoOp =>
        constructor
        · intro _
          simp [runAO, traceOf, stateOf, postorderX, postorderCompiled]
        · exact ⟨[], by simp [runAO, traceOf, stateOf]⟩
      | Load r d sub sz =>
        have hbody : runAO h (n + 1) pin (.inl (.Load r d sub sz)) st =
            (match runAO h n pin (.inl sub) st with
             | .error e => .error e
             | .ok st1 =>
               match performOp h (.Load r d sub sz) [] st1 with
               | .error e => .error e
               | .ok st2 =>
                 .ok { st2 with trace := writeLog (.Load r d sub sz) st2.trace }) :=
          rfl
        rw [hbody]
        cases hrec : runAO h n pin (.inl sub) st with
        | error e =>
          constructor
          · intro hok; simp [resultIsOk] at hok
          · obtain ⟨l1, hl1⟩ := (ih pin (.inl sub) st).2
            rw [hrec] at hl1
            exact ⟨l1, hl1⟩
        | ok st1 =>
          dsimp only
          have h1 : st1.trace = st.trace ++ postorderCompiled sub := by
            have := (ih pin (.inl sub) st).1 (by rw [hrec]; rfl)
            rw [hrec] at this
            exact this
          cases hperf : performOp h (.Load r d sub sz) [] st1 with
          | error e =>
            have h2 : e.2.trace = st1.trace := by
              have := performOp_trace S h (.Load r d sub sz) [] st1
              rw [hperf] at this
              rcases e with ⟨msg, est⟩
              exact this
          
            constructor
            · intro hok; simp [resultIsOk] at hok
            · exact ⟨postorderCompiled sub, by
                show e.2.trace = st.trace ++ postorderCompiled sub
                rw [h2, h1]⟩
          | ok st2 =>
            have h2 : st2.trace = st1.trace := by
              have := performOp_trace S h (.Load r d sub sz) [] st1
              rw [hperf] at this
              exact this
            constructor
            · intro _
              show st2.trace ++ [compileOp (.Load r d sub sz)] =
                st.trace ++ postorderX (.inl (.Load r d sub sz))
              rw [h2, h1, postorderX, postorderCompiled, List.append_assoc]
            · exact ⟨postorderCompiled sub ++ [compileOp (.Load r d sub sz)], by
                show st2.trace ++ [compileOp (.Load r d sub sz)] =
                  st.trace ++ (postorderCompiled sub ++ [compileOp (.Load r d sub sz)])
                rw [h2, h1, List.append_assoc]⟩
      | Store r ev d sub sz =>
        have hbody : runAO h (n + 1) pin (.inl (.Store r ev d sub sz)) st =
            (match runAO h n pin (.inl sub) st with
             | .error e => .error e
             | .ok st1 =>
               match performOp h (.Store r ev d sub sz) [] st1 with
               | .error e => .error e
               | .ok st2 =>
                 .ok { st2 with trace := writeLog (.Store r ev d sub sz) st2.trace }) :=
          rfl
        rw [hbody]
        cases hrec : runAO h n pin (.inl sub) st with
        | error e =>
          constructor
          · intro hok; simp [resultIsOk] at hok
          · obtain ⟨l1, hl1⟩ := (ih pin (.inl sub) st).2
            rw [hrec] at hl1
            exact ⟨l1, hl1⟩
        | ok st1 =>
          dsimp only
          have h1 : st1.trace = st.trace ++ postorderCompiled sub := by
            have := (ih pin (.inl sub) st).1 (by rw [hrec]; rfl)
            rw [hrec] at this
            exact this
          cases hperf : performOp h (.Store r ev d sub sz) [] st1 with
          | error e =>
            have h2 : e.2.trace = st1.trace := by
              have := performOp_trace S h (.Store r ev d sub sz) [] st1
              rw [hperf] at this
              rcases e with ⟨msg, est⟩
              exact this
            constructor
            · intro hok; simp [resultIsOk] at hok
            · exact ⟨postorderCompiled sub, by
                show e.2.trace = st.trace ++ postorderCompiled sub
                rw [h2, h1]⟩
          | ok st2 =>
            have h2 : st2.trace = st1.trace := by
              have := performOp_trace S h (.Store r ev d sub sz) [] st1
              rw [hperf] at this
              exact this
            constructor
            · intro _
              show st2.trace ++ [compileOp (.Store r ev d sub sz)] =
                st.trace ++ postorderX (.inl (.Store r ev d sub sz))
              rw [h2, h1, postorderX, postorderCompiled, List.append_assoc]
            · exact ⟨postorderCompiled sub ++ [compileOp (.Store r ev d sub sz)], by
                show st2.trace ++ [compileOp (.Store r ev d sub sz)] =
                  st.trace ++ (postorderCompiled sub ++ [compileOp (.Store r ev d sub sz)])
                rw [h2, h1, List.append_assoc]⟩
      | Compute r o dst args sz =>
        have hbody : runAO h (n + 1) pin (.inl (.Compute r o dst args sz)) st =
            (match runAO h n args.ids (.inr args) st with
             | .error e => .error e
             | .ok st1 =>
               match performOp h (.Compute r o dst args sz) [] st1 with
               | .error e => .error e
               | .ok st2 =>
                 .ok { st2 with
                        trace := writeLog (.Compute r o dst args sz) st2.trace }) :=
          rfl
        rw [hbody]
        cases hrec : runAO h n args.ids (.inr args) st with
        | error e =>
          constructor
          · intro hok; simp [resultIsOk] at hok
          · obtain ⟨l1, hl1⟩ := (ih args.ids (.inr args) st).2
            rw [hrec] at hl1
            exact ⟨l1, hl1⟩
        | ok st1 =>
          dsimp only
          have h1 : st1.trace = st.trace ++ postorderList args := by
            have := (ih args.ids (.inr args) st).1 (by rw [hrec]; rfl)
            rw [hrec] at this
            exact this
          cases hperf : performOp h (.Compute r o dst args sz) [] st1 with
          | error e =>
            have h2 : e.2.trace = st1.trace := by
              have := performOp_trace S h (.Compute r o dst args sz) [] st1
              rw [hperf] at this
              rcases e with ⟨msg, est⟩
              exact this
            constructor
            · intro hok; simp [resultIsOk] at hok
            · exact ⟨postorderList args, by
                show e.2.trace = st.trace ++ postorderList args
                rw [h2, h1]⟩
          | ok st2 =>
            have h2 : st2.trace = st1.trace := by
              have := performOp_trace S h (.Compute r o dst args sz) [] st1
              rw [hperf] at this
              exact this
            constructor
            · intro _
              show st2.trace ++ [compileOp (.Compute r o dst args sz)] =
                st.trace ++ postorderX (.inl (.Compute r o dst args sz))
              rw [h2, h1, postorderX, postorderCompiled, List.append_assoc]
            · exact ⟨postorderList args ++ [compileOp (.Compute r o dst args sz)], by
                show st2.trace ++ [compileOp (.Compute r o dst args sz)] =
                  st.trace ++
                    (postorderList args ++ [compileOp (.Compute r o dst args sz)])
                rw [h2, h1, List.append_assoc]⟩

/-- C2: a run that completes normally yields the textual trace: the
interpreter appends the compiled form of each executed micro-instruction
to the append-only trace buffer in execution order, so on normal
completion the buffer extends the initial one by exactly the compiled
postorder of the tree; on a fatal error the state carried by the error
still holds the accumulated trace, which extends the initial buffer
(append-only, partial progress preserved); and the spec-modelled driver
`simulate` exposes that trace — together with `trip_count` and
`peak_resident_size` — to the caller. -/
theorem run_trace_postorder :
    (∀ (S : Type) (h : HeuristicImpl S) (fuel : Nat) (pin : List Nat)
        (ops : Operators) (st : SimState S),
      resultIsOk (runOps h fuel pin ops st) = true →
        traceOf (runOps h fuel pin ops st) = st.trace ++ postorderCompiled ops) ∧
    (∀ (S : Type) (h : HeuristicImpl S) (fuel : Nat) (pin : List Nat)
        (ops : Operators) (st : SimState S),
      ∃ l, traceOf (runOps h fuel pin ops st) = st.trace ++ l) ∧
    (∀ (S : Type) (h : HeuristicImpl S) (hs0 : S) (rng0 : List Nat)
        (region : String) (cap : Nat) (dram0 : DRAM) (fuel : Nat)
        (ops : Operators),
      (simulate h hs0 rng0 region cap dram0 fuel ops).2 = true →
        (simulate h hs0 rng0 region cap dram0 fuel ops).1.1 =
          postorderCompiled ops) := by
  refine ⟨?_, ?_, ?_⟩
  · intro S h fuel pin ops st hok
    have := (runAO_trace S h fuel pin (.inl ops) st).1 hok
    simpa [postorderX] using this
  · intro S h fuel pin ops st
    exact (runAO_trace S h fuel pin (.inl ops) st).2
  · intro S h hs0 rng0 region cap dram0 fuel ops hok
    unfold simulate at hok ⊢
    dsimp only at hok ⊢
    have := (runAO_trace S h fuel [] (.inl ops)
      { srams := [(region, SRAM.new cap)], dram := dram0, hs := hs0,
        rng := rng0, trace := [], evlog := [] }).1 hok
    simpa [postorderX, traceOf] using this

/-- Witness for `run_trace_postorder` at a concrete completed run. -/
theorem run_trace_postorder_witness :
    resultIsOk (runOps lruImpl 5 [] (.Load "a" 1 .NoOp 4) c2wSt) = true ∧
    traceOf (runOps lruImpl 5 [] (.Load "a" 1 .NoOp 4) c2wSt) =
      c2wSt.trace ++ postorderCompiled (.Load "a" 1 .NoOp 4) := by
  refine ⟨rfl, ?_⟩
  exact run_trace_postorder.1 LruState lruImpl 5 [] (.Load "a" 1 .NoOp 4) c2wSt rfl

theorem evictSingle_lru_setRng (exclude : List Nat) (c : MCtx LruState)
    (r : List Nat) :
    evictSingle lruImpl exclude (setCtxRng c r) =
      emapCtx (fun c' => setCtxRng c' r) (evictSingle lruImpl exclude c) := by
  unfold evictSingle
  have h1 : lruImpl.choose (setCtxRng c r).hs (setCtxRng c r).mem.toVec exclude
      (setCtxRng c r).rng = (lruChoose c.hs exclude, r) := rfl
  have h2 : lruImpl.choose c.hs c.mem.toVec exclude c.rng =
      (lruChoose c.hs exclude, c.rng) := rfl
  rw [h1, h2]
  cases hv : lruChoose c.hs exclude with
  | none => rfl
  | some v =>
    dsimp only [setCtxRng, emapCtx]
    by_cases hcon : c.dram.contains v = true
    · rw [if_pos hcon, if_pos hcon]
      cases hde : c.mem.deallocate v with
      | ok m => rfl
      | error e => rfl
    · rw [if_neg hcon, if_neg hcon]
      cases hst : c.mem.store v true c.dram with
      | ok md => rfl
      | error e => rfl


theorem liftOpRun_setRng (S : Type) (op : Operators) (c : MCtx S)
    (r : List Nat) :
    liftOpRun op (setCtxRng c r) =
      emapCtx (fun c' => setCtxRng c' r) (liftOpRun op c) := by
  unfold liftOpRun
  dsimp only [setCtxRng]
  cases hor : opRun op (some c.mem) c.dram with
  | error e => rfl
  | ok p => rcases p with ⟨mo, d⟩; rfl

theorem allocateLoop_lru_setRng (exclude : List Nat) :
    ∀ (fuel size : Nat) (c : MCtx LruState) (r : List Nat),
      allocateLoop lruImpl fuel size exclude (setCtxRng c r) =
        emapCtx (fun c' => setCtxRng c' r)
          (allocateLoop lruImpl fuel size exclude c) := by
  intro fuel
  induction fuel with
  | zero => intro size c r; rfl
  | succ n ih =>
    intro size c r
    simp only [allocateLoop]
    dsimp only [setCtxRng]
    by_cases hcap : c.mem.size_allocated + size > c.mem.size_total
    · rw [if_pos hcap, if_pos hcap]
      have hes := evictSingle_lru_setRng exclude c r
      dsimp only [setCtxRng] at hes
      rw [hes]
      cases he : evictSingle lruImpl exclude c with
      | ok c1 =>
        show allocateLoop lruImpl n size exclude (setCtxRng c1 r) = _
        rw [ih size c1 r]
        rfl
      | error e => rcases e with ⟨m, cc⟩; rfl
    · rw [if_neg hcap, if_neg hcap]
      rfl

theorem allocateBuffer_lru_setRng (exclude : List Nat) (size : Nat)
    (c : MCtx LruState) (r : List Nat) :
    allocateBuffer lruImpl size exclude (setCtxRng c r) =
      emapCtx (fun c' => setCtxRng c' r)
        (allocateBuffer lruImpl size exclude c) :=
  allocateLoop_lru_setRng exclude (c.mem.residence.length + 1) size c r


theorem rematerialize_lru_setRng (data : Nat) (exclude : List Nat)
    (c : MCtx LruState) (r : List Nat) :
    rematerialize lruImpl data exclude (setCtxRng c r) =
      emapCtx (fun c' => setCtxRng c' r)
        (rematerialize lruImpl data exclude c) := by
  unfold rematerialize
  dsimp only [setCtxRng]
  by_cases hc : c.mem.contains data = true
  · rw [if_pos hc, if_pos hc]
    dsimp only [emapCtx]
    cases hso : c.mem.size_of data with
    | some sz => rfl
    | none => rfl
  · rw [if_neg hc, if_neg hc]
    cases hg : c.dram.get data with
    | error e => rfl
    | ok ds =>
      dsimp only
      have hab := allocateBuffer_lru_setRng exclude ds c r
      dsimp only [setCtxRng] at hab
      rw [hab]
      cases hb : allocateBuffer lruImpl ds exclude c with
      | error e => rcases e with ⟨m, cc⟩; rfl
      | ok c1 =>
        dsimp only [emapCtx]
        cases hput : c1.mem.put data ds false with
        | error e => rfl
        | ok m =>
          dsimp only
          cases hso : m.size_of data with
          | some sz => rfl
          | none => rfl

theorem argStep_lru_setRng (exclude : List Nat) (arg : Nat)
    (c : MCtx LruState) (r : List Nat) :
    argStep lruImpl exclude arg (setCtxRng c r) =
      emapCtx (fun c' => setCtxRng c' r) (argStep lruImpl exclude arg c) := by
  unfold argStep
  dsimp only [setCtxRng]
  by_cases hc : c.mem.contains arg = true
  · rw [if_pos hc, if_pos hc]
    dsimp only [emapCtx]
    cases hso : c.mem.size_of arg with
    | some sz => rfl
    | none => rfl
  · rw [if_neg hc, if_neg hc]
    exact rematerialize_lru_setRng arg exclude c r

theorem processArgs_lru_setRng (exclude : List Nat) :
    ∀ (ids : List Nat) (c : MCtx LruState) (r : List Nat),
      processArgs lruImpl exclude ids (setCtxRng c r) =
        emapCtx (fun c' => setCtxRng c' r)
          (processArgs lruImpl exclude ids c) := by
  intro ids
  induction ids with
  | nil => intro c r; rfl
  | cons a rest ih =>
    intro c r
    simp only [processArgs]
    rw [argStep_lru_setRng]
    cases hstep : argStep lruImpl exclude a c with
    | error e => rcases e with ⟨m, cc⟩; rfl
    | ok c1 =>
      show processArgs lruImpl exclude rest (setCtxRng c1 r) = _
      rw [ih c1 r]

theorem computeCtx_lru_setRng (op : Operators) (dst : Nat) (args : OperList)
    (size : Nat) (c : MCtx LruState) (r : List Nat) :
    computeCtx lruImpl op dst args size (setCtxRng c r) =
      emapCtx (fun c' => setCtxRng c' r)
        (computeCtx lruImpl op dst args size c) := by
  unfold computeCtx
  dsimp only
  rw [processArgs_lru_setRng]
  cases hpa : processArgs lruImpl args.ids args.ids c with
  | error e => rcases e with ⟨m, cc⟩; rfl
  | ok c1 =>
    dsimp only [emapCtx]
    rw [allocateBuffer_lru_setRng]
    cases hab : allocateBuffer lruImpl size args.ids c1 with
    | error e => rcases e with ⟨m, cc⟩; rfl
    | ok c2 =>
      dsimp only [emapCtx]
      rw [liftOpRun_setRng]
      cases hlr : liftOpRun op c2 with
      | error e => rcases e with ⟨m, cc⟩; rfl
      | ok c3 => rfl

theorem loadCtx_lru_setRng (op : Operators) (data : Nat) (size : Nat)
    (exclude : List Nat) (c : MCtx LruState) (r : List Nat) :
    loadCtx lruImpl op data size exclude (setCtxRng c r) =
      emapCtx (fun c' => setCtxRng c' r)
        (loadCtx lruImpl op data size exclude c) := by
  unfold loadCtx
  dsimp only [setCtxRng]
  by_cases hc : c.mem.contains data = true
  · rw [if_pos hc, if_pos hc]
    dsimp only [emapCtx]
    cases hso : c.mem.size_of data with
    | some sz => rfl
    | none => rfl
  · rw [if_neg hc, if_neg hc]
    have hab := allocateBuffer_lru_setRng exclude size c r
    dsimp only [setCtxRng] at hab
    rw [hab]
    cases hb : allocateBuffer lruImpl size exclude c with
    | error e => rcases e with ⟨m, cc⟩; rfl
    | ok c1 =>
      dsimp only [emapCtx]
      have hrec : ({ mem := c1.mem, dram := c1.dram, hs := c1.hs, rng := r,
                     evlog := c1.evlog } : MCtx LruState) = setCtxRng c1 r := rfl
      rw [hrec, liftOpRun_setRng]
      cases hl : liftOpRun op c1 with
      | error e => rcases e with ⟨m, cc⟩; rfl
      | ok c2 =>
        dsimp only [emapCtx, setCtxRng]
        cases hso : c2.mem.size_of data with
        | some sz => rfl
        | none => rfl

theorem storeCtx_lru_setRng (op : Operators) (data : Nat) (ev : Bool)
    (c : MCtx LruState) (r : List Nat) :
    storeCtx lruImpl op data ev (setCtxRng c r) =
      emapCtx (fun c' => setCtxRng c' r) (storeCtx lruImpl op data ev c) := by
  unfold storeCtx
  rw [liftOpRun_setRng]
  cases hl : liftOpRun op c with
  | error e => rcases e with ⟨m, cc⟩; rfl
  | ok c1 =>
    dsimp only [emapCtx]
    cases ev with
    | true => rfl
    | false => rfl

theorem withMem_setRng (S : Type) (region : String) (st : SimState S)
    (r : List Nat)
    (k : MCtx S → Except (String × MCtx S) (MCtx S))
    (hk : ∀ (c : MCtx S) (r' : List Nat),
      k (setCtxRng c r') = emapCtx (fun c' => setCtxRng c' r') (k c)) :
    withMem region (setStRng st r) k =
      emapSt (fun s' => setStRng s' r) (withMem region st k) := by
  unfold withMem
  dsimp only [setStRng]
  cases hls : lookupS region st.srams with
  | none => rfl
  | some m =>
    dsimp only
    have hbase : ({ mem := m, dram := st.dram, hs := st.hs, rng := r,
                    evlog := st.evlog } : MCtx S) =
        setCtxRng { mem := m, dram := st.dram, hs := st.hs, rng := st.rng,
                    evlog := st.evlog } r := rfl
    rw [hbase, hk]
    cases hkr : k { mem := m, dram := st.dram, hs := st.hs, rng := st.rng,
                    evlog := st.evlog } with
    | ok c => rfl
    | error e => rcases e with ⟨msg, cc⟩; rfl

theorem performOp_lru_setRng (op : Operators) (exclude : List Nat)
    (st : SimState LruState) (r : List Nat) :
    performOp lruImpl op exclude (setStRng st r) =
      emapSt (fun s' => setStRng s' r) (performOp lruImpl op exclude st) := by
  cases op with
  | NoOp => rfl
  | Compute reg o dst args sz =>
    unfold performOp
    dsimp only
    by_cases hreg : reg = "host"
    · rw [if_pos hreg, if_pos hreg]
      dsimp only [setStRng]
      cases hor : opRun (.Compute reg o dst args sz) none st.dram with
      | error e => rfl
      | ok p => rcases p with ⟨mo, d'⟩; rfl
    · rw [if_neg hreg, if_neg hreg]
      exact withMem_setRng LruState reg st r
        (computeCtx lruImpl (.Compute reg o dst args sz) dst args sz)
        (fun c r' => computeCtx_lru_setRng (.Compute reg o dst args sz)
          dst args sz c r')
  | Load reg dat sub sz =>
    unfold performOp
    dsimp only
    by_cases hreg : reg = "host"
    · rw [if_pos hreg, if_pos hreg]
      dsimp only [setStRng]
      cases hor : opRun (.Load reg dat sub sz) none st.dram with
      | error e => rfl
      | ok p => rcases p with ⟨mo, d'⟩; rfl
    · rw [if_neg hreg, if_neg hreg]
      exact withMem_setRng LruState reg st r
        (loadCtx lruImpl (.Load reg dat sub sz) dat sz exclude)
        (fun c r' => loadCtx_lru_setRng (.Load reg dat sub sz) dat sz exclude c r')
  | Store reg ev dat sub sz =>
    unfold performOp
    dsimp only
    by_cases hreg : reg = "host"
    · rw [if_pos hreg, if_pos hreg]
      rfl
    · rw [if_neg hreg, if_neg hreg]
      exact withMem_setRng LruState reg st r
        (storeCtx lruImpl (.Store reg ev dat sub sz) dat ev)
        (fun c r' => storeCtx_lru_setRng (.Store reg ev dat sub sz) dat ev c r')

theorem runAO_succ_cons (S : Type) (h : HeuristicImpl S) (n : Nat)
    (pin : List Nat) (i : Nat) (op : Operators) (rest : OperList)
    (st : SimState S) :
    runAO h (n + 1) pin (.inr (.cons i op rest)) st =
      (match runAO h n pin (.inl op) st with
       | .error e => .error e
       | .ok st1 => runAO h n pin (.inr rest) st1) := rfl

theorem runAO_succ_load (S : Type) (h : HeuristicImpl S) (n : Nat)
    (pin : List Nat) (rg : String) (d : Nat) (sub : Operators) (sz : Nat)
    (st : SimState S) :
    runAO h (n + 1) pin (.inl (.Load rg d sub sz)) st =
      (match runAO h n pin (.inl sub) st with
       | .error e => .error e
       | .ok st1 =>
         match performOp h (.Load rg d sub sz) [] st1 with
         | .error e => .error e
         | .ok st2 =>
           .ok { st2 with trace := writeLog (.Load rg d sub sz) st2.trace }) := rfl

theorem runAO_succ_store (S : Type) (h : HeuristicImpl S) (n : Nat)
    (pin : List Nat) (rg : String) (ev : Bool) (d : Nat) (sub : Operators)
    (sz : Nat) (st : SimState S) :
    runAO h (n + 1) pin (.inl (.Store rg ev d sub sz)) st =
      (match runAO h n pin (.inl sub) st with
       | .error e => .error e
       | .ok st1 =>
         match performOp h (.Store rg ev d sub sz) [] st1 with
         | .error e => .error e
         | .ok st2 =>
           .ok { st2 with
                  trace := writeLog (.Store rg ev d sub sz) st2.trace }) := rfl

theorem runAO_succ_compute (S : Type) (h : HeuristicImpl S) (n : Nat)
    (pin : List Nat) (rg : String) (o dst : Nat) (args : OperList) (sz : Nat)
    (st : SimState S) :
    runAO h (n + 1) pin (.inl (.Compute rg o dst args sz)) st =
      (match runAO h n args.ids (.inr args) st with
       | .error e => .error e
       | .ok st1 =>
         match performOp h (.Compute rg o dst args sz) [] st1 with
         | .error e => .error e
         | .ok st2 =>
           .ok { st2 with
                  trace := writeLog (.Compute rg o dst args sz) st2.trace }) := rfl

theorem runAO_lru_setRng :
    ∀ (fuel : Nat) (pin : List Nat) (x : Operators ⊕ OperList)
      (st : SimState LruState) (r : List Nat),
      runAO lruImpl fuel pin x (setStRng st r) =
        emapSt (fun s' => setStRng s' r) (runAO lruImpl fuel pin x st) := by
  intro fuel
  induction fuel with
  | zero => intro pin x st r; rfl
  | succ n ih =>
    intro pin x st r
    cases x with
    | inr l =>
      cases l with
      | nil => rfl
      | cons i op rest =>
        rw [runAO_succ_cons, runAO_succ_cons, ih pin (.inl op) st r]
        cases hrec : runAO lruImpl n pin (.inl op) st with
        | error e => rcases e with ⟨m, es⟩; rfl
        | ok st1 =>
          dsimp only [emapSt]
          rw [ih pin (.inr rest) st1 r]
          cases hx : runAO lruImpl n pin (.inr rest) st1 with
          | ok st2 => rfl
          | error e => rcases e with ⟨m, es⟩; rfl
    | inl op =>
      cases op with
      | NoOp => rfl
      | Load rg d sub sz =>
        rw [runAO_succ_load, runAO_succ_load, ih pin (.inl sub) st r]
        cases hrec : runAO lruImpl n pin (.inl sub) st with
        | error e => rcases e with ⟨m, es⟩; rfl
        | ok st1 =>
          dsimp only [emapSt]
          rw [performOp_lru_setRng]
          cases hperf : performOp lruImpl (.Load rg d sub sz) [] st1 with
          | error e => rcases e with ⟨m, es⟩; rfl
          | ok st2 => rfl
      | Store rg ev d sub sz =>
        rw [runAO_succ_store, runAO_succ_store, ih pin (.inl sub) st r]
        cases hrec : runAO lruImpl n pin (.inl sub) st with
        | error e => rcases e with ⟨m, es⟩; rfl
        | ok st1 =>
          dsimp only [emapSt]
          rw [performOp_lru_setRng]
          cases hperf : performOp lruImpl (.Store rg ev d sub sz) [] st1 with
          | error e => rcases e with ⟨m, es⟩; rfl
          | ok st2 => rfl
      | Compute rg o dst args sz =>
        rw [runAO_succ_compute, runAO_succ_compute, ih args.ids (.inr args) st r]
        cases hrec : runAO lruImpl n args.ids (.inr args) st with
        | error e => rcases e with ⟨m, es⟩; rfl
        | ok st1 =>
          dsimp only [emapSt]
          rw [performOp_lru_setRng]
          cases hperf : performOp lruImpl (.Compute rg o dst args sz) [] st1 with
          | error e => rcases e with ⟨m, es⟩; rfl
          | ok st2 => rfl

theorem resStNoRng_emapSt (S : Type) (r : List Nat)
    (x : Except (String × SimState S) (SimState S)) :
    resStNoRng (emapSt (fun s' => setStRng s' r) x) = resStNoRng x := by
  cases x with
  | ok st => rfl
  | error e => rcases e with ⟨m, st⟩; rfl

/-- C5 (amended): the simulator is a pure function of the input tree, the
initial memories, the heuristic state and the ambient random stream.
With the LRU heuristic (whose wall-clock stamps are modelled by a
deterministic logical clock) the run never consumes the ambient stream,
so two runs on the same input that differ only in that stream produce
identical traces, trip counts, victim choices and final memory states.
The random heuristic, however, draws from `rand::thread_rng()` — the
constructor takes NO seed — so its victim choices depend on ambient
state outside the program and are not reproducible (see the
counterexample). -/
theorem lru_run_ignores_rng_stream (fuel : Nat) (pin : List Nat)
    (ops : Operators) (srams : List (String × SRAM)) (dram : DRAM)
    (hs : LruState) (trace : List String) (evlog : List Nat)
    (r1 r2 : List Nat) :
    resStNoRng (runOps lruImpl fuel pin ops
      { srams := srams, dram := dram, hs := hs, rng := r1, trace := trace,
        evlog := evlog }) =
    resStNoRng (runOps lruImpl fuel pin ops
      { srams := srams, dram := dram, hs := hs, rng := r2, trace := trace,
        evlog := evlog }) := by
  have h1 := runAO_lru_setRng fuel pin (.inl ops)
    { srams := srams, dram := dram, hs := hs, rng := r2, trace := trace,
      evlog := evlog } r1
  have heq : setStRng { srams := srams, dram := dram, hs := hs, rng := r2,
                        trace := trace, evlog := evlog } r1 =
      ({ srams := srams, dram := dram, hs := hs, rng := r1, trace := trace,
         evlog := evlog } : SimState LruState) := rfl
  rw [heq] at h1
  unfold runOps
  rw [h1, resStNoRng_emapSt]

/-- C5 counterexample: the same input tree, initial memories and
(stateless) random heuristic, but two different ambient `thread_rng`
streams: the forced eviction picks tensor 1 under one stream and tensor
2 under the other, so the victim logs and the final SRAM contents
differ. -/
theorem random_run_depends_on_rng_cex :
    evlogOf (runOps randomImpl 20 [] rndCexOp (rndCexSt [0])) = [1] ∧
    evlogOf (runOps randomImpl 20 [] rndCexOp (rndCexSt [1])) = [2] ∧
    ¬ (stateOf (runOps randomImpl 20 [] rndCexOp (rndCexSt [0]))).srams =
      (stateOf (runOps randomImpl 20 [] rndCexOp (rndCexSt [1]))).srams :=
  ⟨rfl, rfl, by decide⟩

/-- C10 (amended): what the memoization of `compile_instruction`
actually guarantees.  (a) On a memo hit the lowering returns `NoOp`
together with the memoized canonical id and leaves the memo unchanged.
(b) For every node variant that records a memo entry (every emitting
variant except `AccessFlatten`, which never inserts into the memo), a
successful lowering of a source id leaves the memo mapping the
translated id to the returned canonical id.  (c) Hence for those
variants — but not for `AccessFlatten` — a second invocation on the
same source id against the resulting memo returns `NoOp` with the same
canonical id and the same memo. -/
theorem lowering_memo_idempotent (expr : List Lang)
    (analysis : Nat → Option String) (trans : List (Nat × Nat)) :
    (∀ fuel srcId memo cur i,
      lookupA srcId trans = some cur →
      lookupA cur memo = some i →
      compileInstruction expr analysis trans (fuel + 1) srcId memo =
        some (some (.NoOp, i), memo)) ∧
    (∀ fuel srcId memo cur op i memo',
      lookupA srcId trans = some cur →
      memoizingNode (expr.get? cur) = true →
      compileInstruction expr analysis trans fuel srcId memo =
        some (some (op, i), memo') →
      lookupA cur memo' = some i) ∧
    (∀ fuel fuel2 srcId memo cur op i memo',
      lookupA srcId trans = some cur →
      memoizingNode (expr.get? cur) = true →
      compileInstruction expr analysis trans fuel srcId memo =
        some (some (op, i), memo') →
      compileInstruction expr analysis trans (fuel2 + 1) srcId memo' =
        some (some (.NoOp, i), memo')) := by
  have hmemoHit : ∀ fuel srcId memo cur i,
      lookupA srcId trans = some cur →
      lookupA cur memo = some i →
      compileInstruction expr analysis trans (fuel + 1) srcId memo =
        some (some (.NoOp, i), memo) := by
    intro fuel srcId memo cur i htrans hmemo
    unfold compileInstruction compileAux
    rw [htrans]
    dsimp only
    rw [hmemo]
  have hInsert : ∀ fuel srcId memo cur op i memo',
      lookupA srcId trans = some cur →
      memoizingNode (expr.get? cur) = true →
      compileInstruction expr analysis trans fuel srcId memo =
        some (some (op, i), memo') →
      lookupA cur memo' = some i := by
    intro fuel srcId memo cur op i memo' htrans hnode hcomp
    have hca : compileAux expr analysis trans fuel (.inl srcId) memo =
        some (.inl (some (op, i)), memo') := by
      unfold compileInstruction at hcomp
      cases h : compileAux expr analysis trans fuel (.inl srcId) memo with
      | none => rw [h] at hcomp; cases hcomp
      | some r =>
        obtain ⟨r0, memoX⟩ := r
        cases r0 with
        | inr pairs => rw [h] at hcomp; cases hcomp
        | inl r1 =>
          rw [h] at hcomp
          dsimp only at hcomp
          injection hcomp with hp
          injection hp with h1 h2
          subst h1
          subst h2
          exact rfl
    cases fuel with
    | zero =>
      rw [show compileAux expr analysis trans 0 (.inl srcId) memo = none
        from rfl] at hca
      cases hca
    | succ f =>
      unfold compileAux at hca
      rw [htrans] at hca
      dsimp only at hca
      cases hmemo : lookupA cur memo with
      | some j =>
        rw [hmemo] at hca
        dsimp only at hca
        cases hca
        exact hmemo
      | none =>
        rw [hmemo] at hca
        dsimp only at hca
        cases hnodeE : expr.get? cur with
        | none => rw [hnodeE] at hca; cases hca
        | some node =>
          rw [hnodeE] at hca
          rw [hnodeE] at hnode
          dsimp only at hca
          cases node <;> (try dsimp only at hca) <;>
            simp only [memoizingNode] at hnode <;>
            try exact absurd hnode (by decide)
          case RelayOperatorCall ids =>
            rcases ids with _ | ⟨op0, rest⟩ <;> dsimp only at hca
            · cases hca
            · repeat' split at hca
              all_goals
                cases hca <;> exact lookupA_memoInsert_self _ _ _
          case AcceleratorLoad region data =>
            repeat' split at hca
            all_goals
              cases hca <;> exact lookupA_memoInsert_self _ _ _
          case AcceleratorStore region data =>
            repeat' split at hca
            all_goals
              cases hca <;> exact lookupA_memoInsert_self _ _ _
          case AcceleratorCall ids =>
            repeat' split at hca
            all_goals
              cases hca <;> exact lookupA_memoInsert_self _ _ _
          case Compute opid x =>
            repeat' split at hca
            all_goals
              cases hca <;> exact lookupA_memoInsert_self _ _ _
          case AccessPair car cdr =>
            repeat' split at hca
            all_goals
              cases hca <;> exact lookupA_memoInsert_self _ _ _
          case AccessLiteral x =>
            cases hca <;> exact lookupA_memoInsert_self _ _ _
          case AccessTensor x =>
            cases hca <;> exact lookupA_memoInsert_self _ _ _
  refine ⟨hmemoHit, hInsert, ?_⟩
  intro fuel fuel2 srcId memo cur op i memo' htrans hnode hcomp
  exact hmemoHit fuel2 srcId memo' cur i htrans
    (hInsert fuel srcId memo cur op i memo' htrans hnode hcomp)

/-- Witness for C10: lowering the single `AccessTensor` node 0 (a
memoizing variant) twice: the first call emits a `Load` and records
`0 ↦ 0`; applying the theorem, the second call returns `NoOp` with the
same canonical id 0 and leaves the memo unchanged. -/
theorem lowering_memo_idempotent_witness :
    compileInstruction [Lang.AccessTensor 0] (fun _ => none) [(0, 0)] 2 0 [] =
      some (some (.Load "host" 0 .NoOp 1, 0), [(0, 0)]) ∧
    compileInstruction [Lang.AccessTensor 0] (fun _ => none) [(0, 0)] 1 0
        [(0, 0)] =
      some (some (.NoOp, 0), [(0, 0)]) :=
  ⟨rfl,
   (lowering_memo_idempotent [Lang.AccessTensor 0] (fun _ => none)
      [(0, 0)]).2.2 2 0 0 [] 0 (.Load "host" 0 .NoOp 1) 0 [(0, 0)]
      rfl rfl rfl⟩

/-- C10 counterexample: the `AccessFlatten` arm of `compile_instruction`
never inserts into the memo, so memoization is not idempotent for every
source id: lowering node 1 (`AccessFlatten` over the `AccessTensor`
node 0) a second time, against the memo produced by the first lowering,
re-emits the full `Compute` instruction instead of `NoOp` (only the
child is now memoized into `NoOp`). -/
theorem lowering_flatten_second_call_not_noop_cex :
    compileInstruction flatCexExpr (fun _ => none) flatCexTrans 3 1 [] =
      some (some (.Compute "host" 1 1
        (.cons 0 (.Load "host" 0 .NoOp 1) .nil) 1, 1), [(0, 0)]) ∧
    compileInstruction flatCexExpr (fun _ => none) flatCexTrans 3 1 [(0, 0)] =
      some (some (.Compute "host" 1 1 (.cons 0 .NoOp .nil) 1, 1), [(0, 0)]) ∧
    opIsNoOp (.Compute "host" 1 1 (.cons 0 .NoOp .nil) 1) = false :=
  ⟨rfl, rfl, rfl⟩
